import Mathlib

/-!
# Verification of the Simplifi report aggregation engine

A shallow embedding, in Lean 4, of the report-building engine of
`report_builder.py` (classes `BaseReport`, `ProfitAndLossReport`,
`CashFlowReport`, `CategoryAnalysisReport`, `MerchantAnalysisReport`,
`TrendAnalysisReport`, `AccountSummaryReport`, `ReportBuilder`).

Modelling conventions, fixed once for the whole file:

* Monetary amounts are rationals (`ℚ`).  The Python code computes with IEEE
  floats; every claim under scrutiny is stated "within floating-point
  tolerance", and the rationals give the exact value the float computation
  approximates, so identities proved here are exactly the identities the
  float code satisfies up to rounding.
* A transaction is a flat record of optional fields (`Tx`).  A pandas
  DataFrame column value can be *absent* (the key never occurs in the input
  dicts, so the column itself is missing), *nan* (`NaN`/`NaT` after
  `errors='coerce'`), or a proper value; `PyVal` has exactly these three
  states for `date`/`amount`.  Text columns use `Option String` (`none` is
  the absent/NaN cell; the distinction is immaterial for text columns
  because every use guards with `na=False` or `.str` which maps NaN to a
  non-match).
* A raising pandas operation (`KeyError` on a missing column, `TypeError`
  from `sorted()` on a mixed float/str column) is modelled with
  `Except PyError`; generators return `Except.error` exactly on the inputs
  where the Python code raises.
* Dates are `Date` records (year/month/day); `pd.to_datetime` restricts
  representable timestamps to years 1677-2262, captured by `validDate`.
  String rendering (`strftime`, `Period.__str__`) is modelled by the label
  functions below, and Python string comparison (used by `sorted()` and by
  report consumers) is code-point lexicographic order, modelled by
  `charListLt` on the character lists.
-/

/-- Lexicographic strict order on character lists, by code point: the order
Python uses to compare strings (`sorted()`, `<`). -/
def charListLt : List Char → List Char → Bool
  | [], [] => false
  | [], _ :: _ => true
  | _ :: _, [] => false
  | a :: as, b :: bs => a < b || (a == b && charListLt as bs)

/-- Non-strict companion of `charListLt`. -/
def charListLe (a b : List Char) : Bool :=
  !(charListLt b a)

/-- Strict code-point lexicographic order on strings, as Python compares
strings. -/
def pyStrLt (s t : String) : Bool :=
  charListLt s.data t.data

/-- Non-strict code-point lexicographic order on strings. -/
def pyStrLe (s t : String) : Bool :=
  charListLe s.data t.data

theorem charListLt_irrefl : ∀ l : List Char, charListLt l l = false := by
  intro l
  induction l with
  | nil => rfl
  | cons a as ih =>
      simp [charListLt, ih, lt_irrefl]

theorem charListLt_asymm :
    ∀ {a b : List Char}, charListLt a b = true → charListLt b a = false := by
  intro a
  induction a with
  | nil =>
      intro b h
      cases b with
      | nil => simpa [charListLt] using h
      | cons c cs => simp [charListLt]
  | cons x xs ih =>
      intro b h
      cases b with
      | nil => simp [charListLt] at h
      | cons y ys =>
          simp only [charListLt, Bool.or_eq_true, Bool.and_eq_true, beq_iff_eq, decide_eq_true_eq] at h
          rcases h with h | ⟨rfl, h⟩
          · have h1 : ¬ y < x := lt_asymm h
            have h2 : y ≠ x := ne_of_gt h
            simp [charListLt, h1, h2]
          · have h1 : ¬ x < x := lt_irrefl x
            simp [charListLt, h1, ih h]

theorem charListLt_trans :
    ∀ {a b c : List Char}, charListLt a b = true → charListLt b c = true →
      charListLt a c = true := by
  intro a
  induction a with
  | nil =>
      intro b c hab hbc
      cases b with
      | nil => simp [charListLt] at hab
      | cons y ys =>
          cases c with
          | nil => simp [charListLt] at hbc
          | cons z zs => simp [charListLt]
  | cons x xs ih =>
      intro b c hab hbc
      cases b with
      | nil => simp [charListLt] at hab
      | cons y ys =>
          cases c with
          | nil => simp [charListLt] at hbc
          | cons z zs =>
              simp only [charListLt, Bool.or_eq_true, Bool.and_eq_true, beq_iff_eq, decide_eq_true_eq] at hab hbc ⊢
              rcases hab with hab | ⟨rfl, hab⟩
              · rcases hbc with hbc | ⟨rfl, hbc⟩
                · exact Or.inl (by simpa using lt_trans (by simpa using hab) (by simpa using hbc))
                · exact Or.inl hab
              · rcases hbc with hbc | ⟨rfl, hbc⟩
                · exact Or.inl hbc
                · exact Or.inr ⟨rfl, ih hab hbc⟩

theorem charListLt_connex :
    ∀ {a b : List Char}, a ≠ b →
      charListLt a b = true ∨ charListLt b a = true := by
  intro a
  induction a with
  | nil =>
      intro b hne
      cases b with
      | nil => exact absurd rfl hne
      | cons y ys => exact Or.inl (by simp [charListLt])
  | cons x xs ih =>
      intro b hne
      cases b with
      | nil => exact Or.inr (by simp [charListLt])
      | cons y ys =>
          rcases lt_trichotomy x y with hxy | hxy | hxy
          · exact Or.inl (by simp [charListLt, hxy])
          · subst hxy
            have hne' : xs ≠ ys := by
              intro h
              exact hne (by rw [h])
            rcases ih hne' with h | h
            · exact Or.inl (by simp [charListLt, h])
            · exact Or.inr (by simp [charListLt, h])
          · exact Or.inr (by simp [charListLt, hxy])

theorem charListLe_total (a b : List Char) :
    charListLe a b = true ∨ charListLe b a = true := by
  by_cases h : a = b
  · subst h
    exact Or.inl (by simp [charListLe, charListLt_irrefl])
  · rcases charListLt_connex h with hlt | hlt
    · exact Or.inl (by simp [charListLe, charListLt_asymm hlt])
    · exact Or.inr (by simp [charListLe, charListLt_asymm hlt])

theorem charListLt_of_not_le {a b : List Char} (h : charListLe a b = false) :
    charListLt b a = true := by
  simpa [charListLe] using h

theorem charListLe_trans {a b c : List Char} (hab : charListLe a b = true)
    (hbc : charListLe b c = true) : charListLe a c = true := by
  simp only [charListLe, Bool.not_eq_true'] at hab hbc ⊢
  by_contra h
  have hca : charListLt c a = true := by
    revert h
    cases charListLt c a <;> simp
  by_cases hac : a = c
  · subst hac
    simp [charListLt_irrefl] at hca
  · by_cases hab' : a = b
    · subst hab'
      simp [hca] at hbc
    · rcases charListLt_connex hab' with h1 | h1
      · have := charListLt_trans hca h1
        simp [this] at hbc
      · simp [h1] at hab

theorem charListLt_of_le_of_ne {a b : List Char} (hle : charListLe a b = true)
    (hne : a ≠ b) : charListLt a b = true := by
  rcases charListLt_connex hne with h | h
  · exact h
  · simp [charListLe, h] at hle

/-- A strictly `charListLt`-smaller list stays smaller after appending
arbitrary suffixes, provided the compared prefixes have equal length
(every label format below is fixed-width, which is why lexicographic order
on whole labels reduces to order on components). -/
theorem charListLt_append_of_lt :
    ∀ {a b : List Char}, a.length = b.length → charListLt a b = true →
      ∀ (c d : List Char), charListLt (a ++ c) (b ++ d) = true := by
  intro a
  induction a with
  | nil =>
      intro b hlen h c d
      cases b with
      | nil => simp [charListLt] at h
      | cons y ys => simp at hlen
  | cons x xs ih =>
      intro b hlen h c d
      cases b with
      | nil => simp at hlen
      | cons y ys =>
          simp only [charListLt, Bool.or_eq_true, Bool.and_eq_true, beq_iff_eq, decide_eq_true_eq] at h
          simp only [List.cons_append, charListLt, Bool.or_eq_true, Bool.and_eq_true, decide_eq_true_eq,
            beq_iff_eq]
          rcases h with h | ⟨rfl, h⟩
          · exact Or.inl h
          · exact Or.inr ⟨by simp, ih (by simpa using hlen) h c d⟩

/-- Appending a common prefix preserves strict lexicographic order. -/
theorem charListLt_append_left :
    ∀ (p : List Char) {c d : List Char}, charListLt c d = true →
      charListLt (p ++ c) (p ++ d) = true := by
  intro p
  induction p with
  | nil => intro c d h; simpa using h
  | cons x xs ih =>
      intro c d h
      simp only [List.cons_append, charListLt, Bool.or_eq_true, Bool.and_eq_true, beq_iff_eq]
      exact Or.inr ⟨by simp, ih h⟩

/-! ## Dates and time bucketing

`pd.to_datetime` parses ISO dates to timestamps; `strftime`/`Period`
rendering recovers the calendar fields.  `Date` carries the calendar fields;
`Date.index` linearises a date to its day number (days since 0000-03-01,
proleptic Gregorian — the standard civil-calendar linearisation, which is
also how pandas stores a timestamp internally), and `dateOfIndex` is the
standard inverse computation.  Representable pandas timestamps span
1677-09-21 to 2262-04-11, so `validDate` also bounds the year. -/

structure Date where
  year : Nat
  month : Nat
  day : Nat
deriving DecidableEq, Repr

/-- Gregorian leap-year rule. -/
def leapYear (y : Nat) : Prop :=
  (y % 4 = 0 ∧ y % 100 ≠ 0) ∨ y % 400 = 0

instance (y : Nat) : Decidable (leapYear y) := by
  unfold leapYear
  infer_instance

/-- Number of days in a calendar month. -/
def daysInMonth (y m : Nat) : Nat :=
  if m = 2 then (if leapYear y then 29 else 28)
  else if m = 4 ∨ m = 6 ∨ m = 9 ∨ m = 11 then 30 else 31

/-- Calendar dates representable as pandas timestamps (`pd.to_datetime`
coerces anything outside 1677-09-21 … 2262-04-11 to `NaT`). -/
def validDate (d : Date) : Prop :=
  1677 ≤ d.year ∧ d.year ≤ 2262 ∧ 1 ≤ d.month ∧ d.month ≤ 12 ∧
    1 ≤ d.day ∧ d.day ≤ daysInMonth d.year d.month

instance (d : Date) : Decidable (validDate d) := by
  unfold validDate
  infer_instance

/-- Chronological strict order on dates. -/
def Date.before (a b : Date) : Prop :=
  a.year < b.year ∨ (a.year = b.year ∧
    (a.month < b.month ∨ (a.month = b.month ∧ a.day < b.day)))

instance (a b : Date) : Decidable (Date.before a b) := by
  unfold Date.before
  infer_instance

/-- Boolean `≤` on dates, used by the date-range filters. -/
def Date.leB (a b : Date) : Bool :=
  decide (a.before b) || decide (a = b)

/-- Year of the March-based shifted calendar (Jan/Feb belong to the
preceding shifted year). -/
def shiftedYear (d : Date) : Nat :=
  if d.month ≤ 2 then d.year - 1 else d.year

/-- Position of a calendar month in the March-based shifted year
(Mar ↦ 0 … Dec ↦ 9, Jan ↦ 10, Feb ↦ 11). -/
def monthPos (m : Nat) : Nat :=
  if 2 < m then m - 3 else m + 9

/-- Day-of-shifted-year of a month/day pair (0-based, day 0 = 1 March). -/
def doyOf (m day : Nat) : Nat :=
  (153 * monthPos m + 2) / 5 + day - 1

/-- Days from 0000-03-01 to the start of shifted year `y`. -/
def yearDays (y : Nat) : Nat :=
  365 * y + y / 4 - y / 100 + y / 400

/-- Day number of a date: days since 0000-03-01, proleptic Gregorian. -/
def Date.index (d : Date) : Nat :=
  yearDays (shiftedYear d) + doyOf d.month d.day

/-- Shifted year within a 400-year era recovered from the day-of-era. -/
def yoeOf (doe : Nat) : Nat :=
  (doe - doe / 1460 + doe / 36524 - doe / 146096) / 365

/-- Days from the start of an era to the start of in-era shifted year
`yoe` (no 400-year term: an era is exactly 146097 days). -/
def inEraDays (yoe : Nat) : Nat :=
  365 * yoe + yoe / 4 - yoe / 100

/-- Shifted year (era-combined) of a day number. -/
def shiftedYearAt (n : Nat) : Nat :=
  (n / 146097) * 400 + yoeOf (n % 146097)

/-- Day-of-shifted-year of a day number. -/
def doyAt (n : Nat) : Nat :=
  n % 146097 - inEraDays (yoeOf (n % 146097))

/-- Calendar month of a day-of-shifted-year. -/
def monthOfDoy (doy : Nat) : Nat :=
  if (5 * doy + 2) / 153 < 10 then (5 * doy + 2) / 153 + 3
  else (5 * doy + 2) / 153 - 9

/-- Day-of-month of a day-of-shifted-year. -/
def dayOfDoy (doy : Nat) : Nat :=
  doy - (153 * ((5 * doy + 2) / 153) + 2) / 5 + 1

/-- Inverse of `Date.index`: the calendar date of a day number (the
standard civil-from-days computation; pandas performs the equivalent
conversion when rendering a stored timestamp). -/
def dateOfIndex (n : Nat) : Date :=
  ⟨(if monthOfDoy (doyAt n) ≤ 2 then shiftedYearAt n + 1 else shiftedYearAt n),
    monthOfDoy (doyAt n), dayOfDoy (doyAt n)⟩

/-- Day number of the Monday opening the week that contains day `n`
(pandas `to_period('W')` uses `W-SUN`: weeks run Monday…Sunday;
0000-03-01 is a Wednesday, two days after its week's Monday). -/
def weekStart (n : Nat) : Nat :=
  n - (n + 2) % 7

/-- Week number of day `n` (same week ↔ same `weekIndex`). -/
def weekIndex (n : Nat) : Nat :=
  (n + 2) / 7

/-- The decimal digit character for `n % 10`. -/
def dchar (n : Nat) : Char :=
  Char.ofNat (48 + n % 10)

/-- Two-digit zero-padded decimal rendering (`%m`, `%d`). -/
def pad2 (n : Nat) : List Char :=
  [dchar (n / 10), dchar n]

/-- Four-digit zero-padded decimal rendering (`%Y` for pandas years). -/
def pad4 (n : Nat) : List Char :=
  [dchar (n / 1000), dchar (n / 100), dchar (n / 10), dchar n]

/-- Characters of `strftime('%Y-%m-%d')`. -/
def dailyChars (d : Date) : List Char :=
  pad4 d.year ++ '-' :: (pad2 d.month ++ '-' :: pad2 d.day)

/-- Characters of `strftime('%Y-%m')`. -/
def monthlyChars (d : Date) : List Char :=
  pad4 d.year ++ '-' :: pad2 d.month

/-- Characters of `strftime('%Y')`. -/
def yearlyChars (d : Date) : List Char :=
  pad4 d.year

/-- Calendar quarter (1…4) of a month. -/
def quarterOf (m : Nat) : Nat :=
  (m - 1) / 3 + 1

/-- Characters of `str(date.to_period('Q'))`: pandas renders a quarterly
period as `YYYYQ#`, with no separator. -/
def quarterlyChars (d : Date) : List Char :=
  pad4 d.year ++ 'Q' :: [dchar (quarterOf d.month)]

/-- Characters of `str(date.to_period('W'))`: pandas renders a weekly
period as `start/end`, the Monday and Sunday of the containing week, each
in `YYYY-MM-DD` form. -/
def weeklyChars (d : Date) : List Char :=
  dailyChars (dateOfIndex (weekStart d.index)) ++
    '/' :: dailyChars (dateOfIndex (weekStart d.index + 6))

/-- `TimeGrouping` (report_builder.py line 40): the five time-bucketing
granularities. -/
inductive TimeGrouping
  | daily
  | weekly
  | monthly
  | quarterly
  | yearly
deriving DecidableEq, Repr

/-- The raw string attached to each granularity (`TimeGrouping.value`). -/
def TimeGrouping.value : TimeGrouping → String
  | .daily => "daily"
  | .weekly => "weekly"
  | .monthly => "monthly"
  | .quarterly => "quarterly"
  | .yearly => "yearly"

/-- The period label of a date under a granularity: the `df['period']`
column built by `CashFlowReport._generate_report` (lines 381-390) and
`TrendAnalysisReport._generate_report` (lines 667-676). -/
def periodLabel : TimeGrouping → Date → String
  | .daily, d => ⟨dailyChars d⟩
  | .weekly, d => ⟨weeklyChars d⟩
  | .monthly, d => ⟨monthlyChars d⟩
  | .quarterly, d => ⟨quarterlyChars d⟩
  | .yearly, d => ⟨yearlyChars d⟩

/-! ### Digit and padded-numeral lemmas -/

theorem dchar_mono : ∀ a, a ≤ 9 → ∀ b, b ≤ 9 → a < b → dchar a < dchar b := by
  decide

theorem dchar_lt_of_mod {a b : Nat} (h : a % 10 < b % 10) : dchar a < dchar b := by
  have ha : dchar a = dchar (a % 10) := by
    unfold dchar
    have : a % 10 % 10 = a % 10 := by omega
    rw [this]
  have hb : dchar b = dchar (b % 10) := by
    unfold dchar
    have : b % 10 % 10 = b % 10 := by omega
    rw [this]
  rw [ha, hb]
  exact dchar_mono _ (by omega) _ (by omega) h

theorem dchar_congr {a b : Nat} (h : a % 10 = b % 10) : dchar a = dchar b := by
  unfold dchar
  rw [h]

/-- A single-character lexicographic step from a digit comparison. -/
theorem charListLt_cons_same (c : Char) {a b : List Char}
    (h : charListLt a b = true) : charListLt (c :: a) (c :: b) = true := by
  simp [charListLt, lt_irrefl, h]

theorem charListLt_single_digit {a b : Nat} (h : a % 10 < b % 10) :
    ∀ (s t : List Char), charListLt (dchar a :: s) (dchar b :: t) = true := by
  intro s t
  simp [charListLt, dchar_lt_of_mod h]

theorem pad2_lt {n m : Nat} (h : n < m) (hm : m ≤ 99) :
    ∀ (s t : List Char), charListLt (pad2 n ++ s) (pad2 m ++ t) = true := by
  intro s t
  have hcases : n / 10 % 10 < m / 10 % 10 ∨
      (n / 10 % 10 = m / 10 % 10 ∧ n % 10 < m % 10) := by omega
  unfold pad2
  rcases hcases with h1 | ⟨h1, h2⟩
  · exact charListLt_single_digit h1 _ _
  · rw [dchar_congr h1]
    exact charListLt_cons_same _ (charListLt_single_digit h2 _ _)

theorem pad4_lt {n m : Nat} (h : n < m) (hm : m ≤ 9999) :
    ∀ (s t : List Char), charListLt (pad4 n ++ s) (pad4 m ++ t) = true := by
  intro s t
  unfold pad4
  rcases Nat.lt_or_ge (n / 1000) (m / 1000) with h1 | h1
  · exact charListLt_single_digit (by omega) _ _
  · have e1 : n / 1000 = m / 1000 := by omega
    rw [dchar_congr (by omega : n / 1000 % 10 = m / 1000 % 10)]
    refine charListLt_cons_same _ ?_
    rcases Nat.lt_or_ge (n / 100) (m / 100) with h2 | h2
    · exact charListLt_single_digit (by omega) _ _
    · have e2 : n / 100 = m / 100 := by omega
      rw [dchar_congr (by omega : n / 100 % 10 = m / 100 % 10)]
      refine charListLt_cons_same _ ?_
      rcases Nat.lt_or_ge (n / 10) (m / 10) with h3 | h3
      · exact charListLt_single_digit (by omega) _ _
      · have e3 : n / 10 = m / 10 := by omega
        rw [dchar_congr (by omega : n / 10 % 10 = m / 10 % 10)]
        exact charListLt_cons_same _ (charListLt_single_digit (by omega) _ _)

/-! ### Label monotonicity for the fixed-width formats -/

theorem yearlyChars_lt {d1 d2 : Date} (h : d1.year < d2.year)
    (hb : d2.year ≤ 9999) : charListLt (yearlyChars d1) (yearlyChars d2) = true := by
  have := pad4_lt h hb [] []
  simpa [yearlyChars] using this

theorem monthlyChars_lt {d1 d2 : Date}
    (h : d1.year < d2.year ∨ (d1.year = d2.year ∧ d1.month < d2.month))
    (hy : d2.year ≤ 9999) (hm : d2.month ≤ 99) :
    charListLt (monthlyChars d1) (monthlyChars d2) = true := by
  unfold monthlyChars
  rcases h with h | ⟨hyeq, h⟩
  · exact pad4_lt h hy _ _
  · rw [hyeq]
    exact charListLt_append_left (pad4 d2.year)
      (charListLt_cons_same '-' (pad2_lt h hm [] []))

theorem dailyChars_lt {d1 d2 : Date} (h : d1.before d2)
    (hy : d2.year ≤ 9999) (hm2 : d2.month ≤ 99) (hd : d2.day ≤ 99) :
    charListLt (dailyChars d1) (dailyChars d2) = true := by
  unfold dailyChars
  rcases h with h | ⟨hyeq, h | ⟨hmeq, h⟩⟩
  · exact pad4_lt h hy _ _
  · rw [hyeq]
    exact charListLt_append_left (pad4 d2.year)
      (charListLt_cons_same '-' (pad2_lt h hm2 _ _))
  · rw [hyeq, hmeq]
    refine charListLt_append_left (pad4 d2.year) (charListLt_cons_same '-' ?_)
    exact charListLt_append_left (pad2 d2.month)
      (charListLt_cons_same '-' (pad2_lt h hd [] []))

theorem quarterlyChars_lt {d1 d2 : Date}
    (h : d1.year < d2.year ∨ (d1.year = d2.year ∧ quarterOf d1.month < quarterOf d2.month))
    (hy : d2.year ≤ 9999) (hq : quarterOf d2.month ≤ 9) :
    charListLt (quarterlyChars d1) (quarterlyChars d2) = true := by
  unfold quarterlyChars
  rcases h with h | ⟨hyeq, h⟩
  · exact pad4_lt h hy _ _
  · rw [hyeq]
    refine charListLt_append_left (pad4 d2.year) (charListLt_cons_same 'Q' ?_)
    exact charListLt_single_digit (by omega) [] []

/-! ### Correctness of the day-number inversion -/

theorem inEraDays_mono {y1 y2 : Nat} (h : y1 ≤ y2) : inEraDays y1 ≤ inEraDays y2 := by
  unfold inEraDays
  have h4 : y1 / 4 ≤ y2 / 4 := Nat.div_le_div_right h
  have ha : y1 / 100 ≤ y1 / 4 := Nat.div_le_div_left (by norm_num) (by norm_num)
  have hb : y2 / 100 ≤ y2 / 4 := Nat.div_le_div_left (by norm_num) (by norm_num)
  have hd : y2 / 100 ≤ y1 / 100 + (y2 - y1) := by
    have h1 : y2 ≤ y1 + 100 * (y2 - y1) := by omega
    calc y2 / 100 ≤ (y1 + 100 * (y2 - y1)) / 100 := Nat.div_le_div_right h1
    _ = y1 / 100 + (y2 - y1) := Nat.add_mul_div_left _ _ (by norm_num)
  omega

theorem inEraDays_succ (y : Nat) : inEraDays y + 365 ≤ inEraDays (y + 1) := by
  unfold inEraDays
  have h4 : y / 4 ≤ (y + 1) / 4 := Nat.div_le_div_right (by omega)
  have ha : y / 100 ≤ y / 4 := Nat.div_le_div_left (by norm_num) (by norm_num)
  have hb : (y + 1) / 100 ≤ (y + 1) / 4 := Nat.div_le_div_left (by norm_num) (by norm_num)
  by_cases hc : (y + 1) % 100 = 0
  · have hc4 : (y + 1) % 4 = 0 := by
      rw [← Nat.mod_mod_of_dvd (y + 1) (by norm_num : (4:ℕ) ∣ 100), hc]
    have hj4 : (y + 1) / 4 = y / 4 + 1 := by omega
    have hj100 : (y + 1) / 100 ≤ y / 100 + 1 := by omega
    omega
  · have hj100 : (y + 1) / 100 = y / 100 := by omega
    omega

/-- Correctness of the year-from-day-of-era formula of `yoeOf`: the in-era
year it selects starts no later than `doe`, starts at most 365 days before
it, and stays inside the 400-year era. -/
theorem yoeOf_spec {doe : Nat} (h : doe < 146097) :
    inEraDays (yoeOf doe) ≤ doe ∧ doe - inEraDays (yoeOf doe) ≤ 365 ∧ yoeOf doe ≤ 399 := by
  by_cases h146 : doe = 146096
  · subst h146
    decide
  obtain ⟨c, u, hcu, hu, hc⟩ : ∃ c u, doe = 36524 * c + u ∧ u < 36524 ∧ c ≤ 3 :=
    ⟨doe / 36524, doe % 36524, by omega, by omega, by omega⟩
  have h36524 : doe / 36524 = c := by omega
  have h146096 : doe / 146096 = 0 := by omega
  have h1460 : doe / 1460 = 25 * c + (u + 24 * c) / 1460 := by omega
  have ht : doe - doe / 1460 + doe / 36524 - doe / 146096 =
      36500 * c + (u - (u + 24 * c) / 1460) := by omega
  have hyoe : yoeOf doe = 100 * c + (u - (u + 24 * c) / 1460) / 365 := by
    unfold yoeOf
    rw [ht]
    omega
  obtain ⟨q, s, hs, hqs⟩ : ∃ q s, s < 1460 ∧ u + 24 * c = 1460 * q + s :=
    ⟨(u + 24 * c) / 1460, (u + 24 * c) % 1460, by omega, by omega⟩
  obtain ⟨v, r2, hr2, hvr⟩ : ∃ v r2, r2 < 365 ∧
      u - (u + 24 * c) / 1460 = 365 * v + r2 :=
    ⟨(u - (u + 24 * c) / 1460) / 365, (u - (u + 24 * c) / 1460) % 365, by omega, by omega⟩
  have hv365 : (u - (u + 24 * c) / 1460) / 365 = v := by omega
  obtain ⟨p, r3, hr3, hpr⟩ : ∃ p r3, r3 < 4 ∧ v = 4 * p + r3 :=
    ⟨v / 4, v % 4, by omega, by omega⟩
  have hv99 : v ≤ 99 := by omega
  rw [hyoe, hv365]
  unfold inEraDays
  have hyd : 365 * (100 * c + v) + (100 * c + v) / 4 - (100 * c + v) / 100 =
      36524 * c + 365 * v + v / 4 := by omega
  omega

theorem doyAt_le (n : Nat) : doyAt n ≤ 365 := by
  have hb : n % 146097 < 146097 := Nat.mod_lt _ (by norm_num)
  have := yoeOf_spec hb
  unfold doyAt
  omega

/-- Strict monotonicity of the (shifted-year, day-of-year) key extracted
from a day number. -/
theorem civilKey_mono {n1 n2 : Nat} (h : n1 < n2) :
    shiftedYearAt n1 < shiftedYearAt n2 ∨
      (shiftedYearAt n1 = shiftedYearAt n2 ∧ doyAt n1 < doyAt n2) := by
  have hb1 : n1 % 146097 < 146097 := Nat.mod_lt _ (by norm_num)
  have hb2 : n2 % 146097 < 146097 := Nat.mod_lt _ (by norm_num)
  obtain ⟨s1a, s1b, s1c⟩ := yoeOf_spec hb1
  obtain ⟨s2a, s2b, s2c⟩ := yoeOf_spec hb2
  unfold shiftedYearAt doyAt
  rcases Nat.lt_or_ge (n1 / 146097) (n2 / 146097) with hera | hera
  · left
    omega
  · have hera2 : n1 / 146097 = n2 / 146097 := by omega
    have hdoe : n1 % 146097 < n2 % 146097 := by omega
    by_cases hyy : yoeOf (n2 % 146097) < yoeOf (n1 % 146097)
    · exfalso
      have hm : inEraDays (yoeOf (n2 % 146097) + 1) ≤ inEraDays (yoeOf (n1 % 146097)) :=
        inEraDays_mono hyy
      have hs := inEraDays_succ (yoeOf (n2 % 146097))
      omega
    · rcases Nat.lt_or_ge (yoeOf (n1 % 146097)) (yoeOf (n2 % 146097)) with hy | hy
      · left
        omega
      · have hyeq : yoeOf (n1 % 146097) = yoeOf (n2 % 146097) := by omega
        right
        rw [hyeq] at s1a ⊢
        exact ⟨by omega, by omega⟩

theorem monthOfDoy_bounds {doy : Nat} (h : doy ≤ 365) :
    1 ≤ monthOfDoy doy ∧ monthOfDoy doy ≤ 12 := by
  unfold monthOfDoy
  split <;> omega

theorem dayOfDoy_bounds {doy : Nat} (h : doy ≤ 365) :
    1 ≤ dayOfDoy doy ∧ dayOfDoy doy ≤ 31 := by
  unfold dayOfDoy
  omega

/-- Ordered (shifted-year, day-of-year) keys yield chronologically ordered
calendar dates. -/
theorem mdOf_before {Y1 Y2 a b : Nat} (ha : a ≤ 365) (hb : b ≤ 365)
    (hk : Y1 < Y2 ∨ (Y1 = Y2 ∧ a < b)) :
    Date.before ⟨(if monthOfDoy a ≤ 2 then Y1 + 1 else Y1), monthOfDoy a, dayOfDoy a⟩
      ⟨(if monthOfDoy b ≤ 2 then Y2 + 1 else Y2), monthOfDoy b, dayOfDoy b⟩ := by
  unfold Date.before monthOfDoy dayOfDoy
  dsimp only
  split_ifs <;> omega

theorem dateOfIndex_before {n1 n2 : Nat} (h : n1 < n2) :
    Date.before (dateOfIndex n1) (dateOfIndex n2) := by
  have hk := civilKey_mono h
  have h1 := doyAt_le n1
  have h2 := doyAt_le n2
  unfold dateOfIndex
  exact mdOf_before h1 h2 hk

theorem dateOfIndex_month_bounds (n : Nat) :
    1 ≤ (dateOfIndex n).month ∧ (dateOfIndex n).month ≤ 12 :=
  monthOfDoy_bounds (doyAt_le n)

theorem dateOfIndex_day_bounds (n : Nat) :
    1 ≤ (dateOfIndex n).day ∧ (dateOfIndex n).day ≤ 31 :=
  dayOfDoy_bounds (doyAt_le n)

theorem dateOfIndex_year_le {n : Nat} (h : n ≤ 826543) :
    (dateOfIndex n).year ≤ 9999 := by
  have hb : n % 146097 < 146097 := Nat.mod_lt _ (by norm_num)
  have := (yoeOf_spec hb).2.2
  unfold dateOfIndex shiftedYearAt
  dsimp only
  split <;> omega

/-! ### Monotonicity of the day number in chronological order -/

theorem yearDays_mono {y1 y2 : Nat} (h : y1 ≤ y2) : yearDays y1 ≤ yearDays y2 := by
  unfold yearDays
  have h4 : y1 / 4 ≤ y2 / 4 := Nat.div_le_div_right h
  have h400 : y1 / 400 ≤ y2 / 400 := Nat.div_le_div_right h
  have ha : y1 / 100 ≤ y1 / 4 := Nat.div_le_div_left (by norm_num) (by norm_num)
  have hb : y2 / 100 ≤ y2 / 4 := Nat.div_le_div_left (by norm_num) (by norm_num)
  have hd : y2 / 100 ≤ y1 / 100 + (y2 - y1) := by
    have h1 : y2 ≤ y1 + 100 * (y2 - y1) := by omega
    calc y2 / 100 ≤ (y1 + 100 * (y2 - y1)) / 100 := Nat.div_le_div_right h1
    _ = y1 / 100 + (y2 - y1) := Nat.add_mul_div_left _ _ (by norm_num)
  omega

theorem yearDays_succ (y : Nat) : yearDays y + 365 ≤ yearDays (y + 1) := by
  unfold yearDays
  have h4 : y / 4 ≤ (y + 1) / 4 := Nat.div_le_div_right (by omega)
  have h400 : y / 400 ≤ (y + 1) / 400 := Nat.div_le_div_right (by omega)
  have ha : y / 100 ≤ y / 4 := Nat.div_le_div_left (by norm_num) (by norm_num)
  have hb : (y + 1) / 100 ≤ (y + 1) / 4 := Nat.div_le_div_left (by norm_num) (by norm_num)
  by_cases hc : (y + 1) % 100 = 0
  · have hc4 : (y + 1) % 4 = 0 := by
      rw [← Nat.mod_mod_of_dvd (y + 1) (by norm_num : (4:ℕ) ∣ 100), hc]
    have hj4 : (y + 1) / 4 = y / 4 + 1 := by omega
    have hj100 : (y + 1) / 100 ≤ y / 100 + 1 := by omega
    omega
  · have hj100 : (y + 1) / 100 = y / 100 := by omega
    omega

theorem daysInMonth_le31 (y m : Nat) : daysInMonth y m ≤ 31 := by
  unfold daysInMonth
  split_ifs <;> omega

theorem daysInMonth_feb (y : Nat) : daysInMonth y 2 ≤ 29 := by
  unfold daysInMonth
  split_ifs <;> omega

theorem doyOf_le {d : Date} (hv : validDate d) : doyOf d.month d.day ≤ 365 := by
  obtain ⟨_, _, hm1, hm2, hd1, hd2⟩ := hv
  have h31 : d.day ≤ 31 := le_trans hd2 (daysInMonth_le31 _ _)
  by_cases h2 : d.month = 2
  · have h29 : d.day ≤ 29 := by
      rw [h2] at hd2
      exact le_trans hd2 (daysInMonth_feb _)
    unfold doyOf monthPos
    split_ifs <;> omega
  · unfold doyOf monthPos
    split_ifs <;> omega

/-- In a fixed shifted year, a strictly earlier month's days all come
before any day of a later month (uses the true month length of the earlier
month: the day-of-year block of each month is exactly as long as the
month). -/
theorem doyOf_mono_month {y m1 m2 day1 day2 : Nat} (hm1a : 1 ≤ m1)
    (hm1b : m1 ≤ 12) (hm2b : m2 ≤ 12) (hmp : monthPos m1 < monthPos m2)
    (hday : day1 ≤ daysInMonth y m1) (hd2 : 1 ≤ day2) :
    doyOf m1 day1 ≤ doyOf m2 day2 := by
  have hfeb : daysInMonth y 2 ≤ 29 := daysInMonth_feb y
  unfold monthPos at hmp
  unfold doyOf monthPos
  interval_cases m1 <;>
    first
      | (have hd' : day1 ≤ 29 := le_trans hday hfeb
         split_ifs at hmp ⊢ <;> omega)
      | (have hd' : day1 ≤ 30 := hday
         split_ifs at hmp ⊢ <;> omega)
      | (have hd' : day1 ≤ 31 := hday
         split_ifs at hmp ⊢ <;> omega)

theorem shiftedYear_le_of_before {d1 d2 : Date} (h1 : 1 ≤ d1.year)
    (h : d1.before d2) : shiftedYear d1 ≤ shiftedYear d2 := by
  unfold Date.before at h
  unfold shiftedYear
  split_ifs <;> omega

/-- The day number is monotone in chronological order on valid dates. -/
theorem index_mono {d1 d2 : Date} (hv1 : validDate d1) (hv2 : validDate d2)
    (h : d1.before d2) : d1.index ≤ d2.index := by
  have hdoy1 := doyOf_le hv1
  obtain ⟨hy1a, hy1b, hm1a, hm1b, hd1a, hd1b⟩ := hv1
  obtain ⟨hy2a, hy2b, hm2a, hm2b, hd2a, hd2b⟩ := hv2
  have hsy := shiftedYear_le_of_before (by omega) h
  rcases Nat.lt_or_ge (shiftedYear d1) (shiftedYear d2) with hlt | hge
  · have hstep := yearDays_succ (shiftedYear d1)
    have hmono := yearDays_mono (show shiftedYear d1 + 1 ≤ shiftedYear d2 by omega)
    unfold Date.index
    omega
  · have hsyeq : shiftedYear d1 = shiftedYear d2 := by omega
    have hkey : monthPos d1.month < monthPos d2.month ∨
        (d1.month = d2.month ∧ d1.day < d2.day) := by
      unfold Date.before at h
      unfold shiftedYear at hsyeq
      unfold monthPos
      split_ifs at hsyeq ⊢ <;> omega
    unfold Date.index
    rw [hsyeq]
    rcases hkey with hkey | ⟨hmeq, hdlt⟩
    · have := doyOf_mono_month hm1a hm1b hm2b hkey hd1b hd2a
      omega
    · rw [hmeq]
      unfold doyOf
      have hpos : 1 ≤ (153 * monthPos d2.month + 2) / 5 + d1.day := by omega
      omega

/-! ### Weeks -/

theorem weekStart_le (n : Nat) : weekStart n ≤ n := by
  unfold weekStart
  omega

theorem weekStart_eq_of_index {n1 n2 : Nat} (h : weekIndex n1 = weekIndex n2) :
    weekStart n1 = weekStart n2 := by
  unfold weekIndex at h
  unfold weekStart
  omega

theorem weekStart_lt_of_index {n1 n2 : Nat} (hn : 2 ≤ n1)
    (h : weekIndex n1 < weekIndex n2) : weekStart n1 < weekStart n2 := by
  unfold weekIndex at h
  unfold weekStart
  omega

theorem weekIndex_mono {n1 n2 : Nat} (h : n1 ≤ n2) : weekIndex n1 ≤ weekIndex n2 := by
  unfold weekIndex
  omega

theorem index_le_max {d : Date} (hv : validDate d) : d.index ≤ 826543 := by
  have h4 := doyOf_le hv
  obtain ⟨hy1a, hy1b, hm1a, hm1b, hd1a, hd1b⟩ := hv
  have h1 : shiftedYear d ≤ 2262 := by
    unfold shiftedYear
    split_ifs <;> omega
  have h2 := yearDays_mono h1
  have h3 : yearDays 2262 = 826178 := by decide
  unfold Date.index
  omega

theorem index_ge_min {d : Date} (hv : validDate d) : 611740 ≤ d.index := by
  obtain ⟨hy1a, hy1b, hm1a, hm1b, hd1a, hd1b⟩ := hv
  have h1 : 1676 ≤ shiftedYear d := by
    unfold shiftedYear
    split_ifs <;> omega
  have h2 := yearDays_mono h1
  have h3 : yearDays 1676 = 612147 := by decide
  unfold Date.index doyOf
  omega

/-! ### Weekly labels -/

theorem dailyChars_length (d : Date) : (dailyChars d).length = 10 := rfl

theorem weeklyChars_eq_of_same_week {d1 d2 : Date}
    (h : weekIndex d1.index = weekIndex d2.index) :
    weeklyChars d1 = weeklyChars d2 := by
  unfold weeklyChars
  rw [weekStart_eq_of_index h]

theorem weeklyChars_lt_of_week_lt {d1 d2 : Date} (hv1 : validDate d1)
    (hv2 : validDate d2) (h : weekIndex d1.index < weekIndex d2.index) :
    charListLt (weeklyChars d1) (weeklyChars d2) = true := by
  have hmin := index_ge_min hv1
  have hmax := index_le_max hv2
  have hws : weekStart d1.index < weekStart d2.index :=
    weekStart_lt_of_index (by omega) h
  have hbefore := dateOfIndex_before hws
  have hy : (dateOfIndex (weekStart d2.index)).year ≤ 9999 :=
    dateOfIndex_year_le (le_trans (weekStart_le _) hmax)
  have hm1 := dateOfIndex_month_bounds (weekStart d1.index)
  have hm2 := dateOfIndex_month_bounds (weekStart d2.index)
  have hd2 := dateOfIndex_day_bounds (weekStart d2.index)
  have hlt := dailyChars_lt hbefore hy (by omega) (by omega)
  unfold weeklyChars
  exact charListLt_append_of_lt
    (by rw [dailyChars_length, dailyChars_length]) hlt _ _

theorem Date.before_trichotomy (a b : Date) :
    a.before b ∨ a = b ∨ b.before a := by
  obtain ⟨ay, am, ad⟩ := a
  obtain ⟨cy, cm, cd⟩ := b
  unfold Date.before
  simp only [Date.mk.injEq]
  omega

/-! ## Transactions and the filter evaluator -/

/-- State of a DataFrame cell for a coerced column: the key can be missing
from every input dict (then the column itself does not exist and access
raises `KeyError`), unparseable (`NaN`/`NaT` after `errors='coerce'`), or
an actual value. -/
inductive PyVal (α : Type)
  | absent
  | nan
  | val (a : α)
deriving DecidableEq, Repr

/-- One transaction record: the flat key/value dict consumed by
`BaseReport.__init__`.  Text columns need no `nan` state because every use
in the source guards them with `na=False` or `.isin` (NaN never matches). -/
structure Tx where
  date : PyVal Date := PyVal.absent
  amount : PyVal ℚ := PyVal.absent
  category : Option String := none
  merchant : Option String := none
  account : Option String := none
  description : Option String := none
  notes : Option String := none
deriving DecidableEq, Repr

/-- `ReportFilter` (report_builder.py lines 49-62). -/
structure ReportFilter where
  start_date : Option Date := none
  end_date : Option Date := none
  categories : Option (List String) := none
  merchants : Option (List String) := none
  accounts : Option (List String) := none
  min_amount : Option ℚ := none
  max_amount : Option ℚ := none
  description_contains : Option String := none
  notes_contains : Option String := none
  exclude_categories : Option (List String) := none
  exclude_merchants : Option (List String) := none

/-- A raising pandas operation. -/
inductive PyError
  | keyError (col : String)
  | typeError
deriving DecidableEq, Repr

/-- `'date' in df.columns`: a DataFrame built from dicts has a column iff
some record carries the key. -/
def hasDateCol (txs : List Tx) : Bool :=
  txs.any fun t => t.date != PyVal.absent

def hasAmountCol (txs : List Tx) : Bool :=
  txs.any fun t => t.amount != PyVal.absent

def hasCategoryCol (txs : List Tx) : Bool :=
  txs.any fun t => t.category.isSome

def hasMerchantCol (txs : List Tx) : Bool :=
  txs.any fun t => t.merchant.isSome

def hasAccountCol (txs : List Tx) : Bool :=
  txs.any fun t => t.account.isSome

def hasDescriptionCol (txs : List Tx) : Bool :=
  txs.any fun t => t.description.isSome

def hasNotesCol (txs : List Tx) : Bool :=
  txs.any fun t => t.notes.isSome

/-- Column membership by name, for the dynamic accesses of
`apply_sort`/`custom_report`. -/
def hasColName (txs : List Tx) (name : String) : Bool :=
  match name with
  | "date" => hasDateCol txs
  | "amount" => hasAmountCol txs
  | "category" => hasCategoryCol txs
  | "merchant" => hasMerchantCol txs
  | "account" => hasAccountCol txs
  | "description" => hasDescriptionCol txs
  | "notes" => hasNotesCol txs
  | _ => false

/-- Python `str.lower()` (ASCII case folding, which covers every character
class the engine compares). -/
def pyLower (s : String) : String :=
  ⟨s.data.map Char.toLower⟩

/-- Atom of the regex fragment the engine feeds to `Series.str.contains`:
`apply_filters` joins the merchant terms with `'|'` and passes the result
as a *regular expression* (`regex=True` is the pandas default).  The
fragment modelled here is a top-level alternation (one alternative per
term — `pyContainsAny` matches iff some term matches) over sequences of
literal characters and the any-character dot; terms using other regex
metacharacters are outside the model. -/
inductive RAtom
  | dot
  | lit (c : Char)
deriving DecidableEq, Repr

def compileTerm (s : String) : List RAtom :=
  s.data.map fun c => if c = '.' then RAtom.dot else RAtom.lit c

/-- One regex atom against one subject character, `re.IGNORECASE`. -/
def atomMatches : RAtom → Char → Bool
  | RAtom.dot, _ => true
  | RAtom.lit c, x => c.toLower == x.toLower

/-- Anchored match of a compiled term at the head of the subject. -/
def matchHere : List RAtom → List Char → Bool
  | [], _ => true
  | _ :: _, [] => false
  | p :: ps, c :: cs => atomMatches p c && matchHere ps cs

/-- Unanchored regex search (`re.search`): try every start position. -/
def searchFrom (p : List RAtom) : List Char → Bool
  | [] => matchHere p []
  | c :: cs => matchHere p (c :: cs) || searchFrom p cs

/-- `series.str.contains(term, case=False, na=False)` on a present cell. -/
def pyContains (term : String) (s : String) : Bool :=
  searchFrom (compileTerm term) s.data

/-- `series.str.contains('|'.join(terms), case=False, na=False)` on a
present cell: the joined pattern is an alternation, so the search succeeds
iff some term's search succeeds. -/
def pyContainsAny (terms : List String) (s : String) : Bool :=
  terms.any fun t => pyContains t s

/-- The row mask `df['amount'] <op> x`: true only on rows whose amount
cell holds a value satisfying `p` (NaN/absent cells compare false). -/
def amountMask (p : ℚ → Bool) (t : Tx) : Bool :=
  match t.amount with
  | PyVal.val a => p a
  | _ => false

/-- `BaseReport.apply_filters` (report_builder.py lines 104-165).  One
`let` block per guarded filter pass of the source, in source order.  A
column-existence test (`'x' in df.columns`) consults the full transaction
list because row filtering never changes the column set; Python truthiness
(`if filters.categories`, `if filters.description_contains`) makes `none`,
the empty list and the empty string all skip a pass, while
`min_amount`/`max_amount` use `is not None` and so apply even at `0`. -/
def apply_filters (txs : List Tx) (filters : ReportFilter) : List Tx :=
  if txs.isEmpty then txs else
  let s1 := match filters.start_date with
    | some d0 => if hasDateCol txs then
        txs.filter fun t => match t.date with
          | PyVal.val d => Date.leB d0 d
          | _ => false
      else txs
    | none => txs
  let s2 := match filters.end_date with
    | some d1 => if hasDateCol txs then
        s1.filter fun t => match t.date with
          | PyVal.val d => Date.leB d d1
          | _ => false
      else s1
    | none => s1
  let s3 := match filters.min_amount with
    | some q => if hasAmountCol txs then
        s2.filter fun t => match t.amount with
          | PyVal.val a => decide (q ≤ a)
          | _ => false
      else s2
    | none => s2
  let s4 := match filters.max_amount with
    | some q => if hasAmountCol txs then
        s3.filter fun t => match t.amount with
          | PyVal.val a => decide (a ≤ q)
          | _ => false
      else s3
    | none => s3
  let s5 := match filters.categories with
    | some l => if !l.isEmpty && hasCategoryCol txs then
        s4.filter fun t => match t.category with
          | some c => (l.map pyLower).contains (pyLower c)
          | none => false
      else s4
    | none => s4
  let s6 := match filters.exclude_categories with
    | some l => if !l.isEmpty && hasCategoryCol txs then
        s5.filter fun t => !(match t.category with
          | some c => (l.map pyLower).contains (pyLower c)
          | none => false)
      else s5
    | none => s5
  let s7 := match filters.merchants with
    | some l => if !l.isEmpty && hasMerchantCol txs then
        s6.filter fun t => match t.merchant with
          | some m => pyContainsAny l m
          | none => false
      else s6
    | none => s6
  let s8 := match filters.exclude_merchants with
    | some l => if !l.isEmpty && hasMerchantCol txs then
        s7.filter fun t => !(match t.merchant with
          | some m => pyContainsAny l m
          | none => false)
      else s7
    | none => s7
  let s9 := match filters.accounts with
    | some l => if !l.isEmpty && hasAccountCol txs then
        s8.filter fun t => match t.account with
          | some a => (l.map pyLower).contains (pyLower a)
          | none => false
      else s8
    | none => s8
  let s10 := match filters.description_contains with
    | some sq => if !sq.isEmpty && hasDescriptionCol txs then
        s9.filter fun t => match t.description with
          | some s => pyContains sq s
          | none => false
      else s9
    | none => s9
  let s11 := match filters.notes_contains with
    | some sq => if !sq.isEmpty && hasNotesCol txs then
        s10.filter fun t => match t.notes with
          | some s => pyContains sq s
          | none => false
      else s10
    | none => s10
  s11

/-- `sorted(series.unique())`: the distinct values in Python string order. -/
def sortedUnique (l : List String) : List String :=
  List.insertionSort (fun a b => pyStrLe a b = true) l.dedup

/-- One `groupby` bucket: the rows whose key column equals `k` (pandas
drops NaN keys from `groupby`). -/
def groupRows (df : List Tx) (key : Tx → Option String) (k : String) : List Tx :=
  df.filter fun t => key t == some k

/-- The group keys of `df.groupby(col)`: the distinct non-null values, in
sorted order (`groupby(sort=True)` is the pandas default). -/
def groupKeys (df : List Tx) (key : Tx → Option String) : List String :=
  sortedUnique (df.filterMap key)

/-- The non-null numeric amounts of a row list (pandas aggregations over
`amount` skip NaN). -/
def amountsOf (l : List Tx) : List ℚ :=
  l.filterMap fun t => match t.amount with
    | PyVal.val a => some a
    | _ => none

/-- `Series.std()`: sample standard deviation (`ddof=1` is the pandas
default), `NaN` (`none`) for fewer than two observations.  Carried as the
squared value so that the model stays in `ℚ`: the code stores the square
root of this, and the square root is injective and monotone on
nonnegatives, so every identity or comparison of `std_dev` values is
faithfully mirrored by the squares. -/
def pandasStdSq (l : List ℚ) : Option ℚ :=
  if l.length < 2 then none
  else
    let m := l.sum / (l.length : ℚ)
    some ((l.map fun x => (x - m) ^ 2).sum / ((l.length : ℚ) - 1))

/-- Occurrences of a value in a list. -/
def countIn (l : List String) (c : String) : Nat :=
  (l.filter fun x => x == c).length

/-- `series.mode()[0] if len(series.mode()) > 0 else ''`: pandas returns
the modes **sorted**, so `[0]` resolves a frequency tie to the
lexicographically least value; the source lambda maps an empty mode list
to `''`. -/
def pyModeFirst (l : List String) : String :=
  let uniq := sortedUnique l
  let maxCnt := (uniq.map (countIn l)).foldl Nat.max 0
  match uniq.filter (fun c => countIn l c == maxCnt) with
  | [] => ""
  | c :: _ => c

/-! ## Report generators -/

/-- One per-category line of the Profit & Loss breakdown (`pct` is the
source's `percentage_of_income` on the income side and
`percentage_of_expenses` on the expense side). -/
structure PLCat where
  category : String
  total : ℚ
  count : Nat
  average : ℚ
  pct : ℚ
deriving DecidableEq, Repr

structure PLReport where
  total_income : ℚ
  total_expenses : ℚ
  net_income : ℚ
  income_by_category : List PLCat
  expenses_by_category : List PLCat
  transaction_count : Nat
  income_transaction_count : Nat
  expense_transaction_count : Nat
deriving DecidableEq, Repr

/-- The zero-valued P&L result for an empty filtered set (lines 222-232). -/
def emptyPL : PLReport :=
  { total_income := 0, total_expenses := 0, net_income := 0,
    income_by_category := [], expenses_by_category := [],
    transaction_count := 0, income_transaction_count := 0,
    expense_transaction_count := 0 }

/-- Income-side category rows (lines 244-258): per sorted group key, sum /
count / mean of the group's amounts plus the share of total income. -/
def plIncomeEntries (income_df : List Tx) (total_income : ℚ) : List PLCat :=
  (groupKeys income_df (fun t => t.category)).map fun k =>
    let g := amountsOf (groupRows income_df (fun t => t.category) k)
    { category := k, total := g.sum, count := g.length,
      average := g.sum / (g.length : ℚ),
      pct := if 0 < total_income then g.sum / total_income * 100 else 0 }

/-- Expense-side category rows (lines 263-279): absolute values of the
group sum and mean, share of total expenses. -/
def plExpenseEntries (expense_df : List Tx) (total_expenses : ℚ) : List PLCat :=
  (groupKeys expense_df (fun t => t.category)).map fun k =>
    let g := amountsOf (groupRows expense_df (fun t => t.category) k)
    { category := k, total := |g.sum|, count := g.length,
      average := |g.sum / (g.length : ℚ)|,
      pct := if 0 < total_expenses then |g.sum| / total_expenses * 100 else 0 }

/-- `ProfitAndLossReport._generate_report` (lines 218-295). -/
def profit_and_loss (txs : List Tx) (filters : ReportFilter) :
    Except PyError PLReport :=
  let df := apply_filters txs filters
  if df.isEmpty then Except.ok emptyPL
  else if !hasAmountCol txs then Except.error (PyError.keyError "amount")
  else
    let income_df := df.filter (amountMask fun a => decide (0 < a))
    let expense_df := df.filter (amountMask fun a => decide (a < 0))
    let total_income := (amountsOf income_df).sum
    let total_expenses := |(amountsOf expense_df).sum|
    let ibc := if !income_df.isEmpty && hasCategoryCol txs then
        List.insertionSort (fun a b : PLCat => b.total ≤ a.total)
          (plIncomeEntries income_df total_income)
      else []
    let ebc := if !expense_df.isEmpty && hasCategoryCol txs then
        List.insertionSort (fun a b : PLCat => b.total ≤ a.total)
          (plExpenseEntries expense_df total_expenses)
      else []
    Except.ok
      { total_income := total_income, total_expenses := total_expenses,
        net_income := total_income - total_expenses,
        income_by_category := ibc, expenses_by_category := ebc,
        transaction_count := df.length,
        income_transaction_count := income_df.length,
        expense_transaction_count := expense_df.length }

structure CFPeriod where
  period : String
  inflow : ℚ
  outflow : ℚ
  net_flow : ℚ
  running_balance : ℚ
  transaction_count : Nat
deriving DecidableEq, Repr

structure CFReport where
  grouping : String
  period : String
  periods : List CFPeriod
  total_inflow : ℚ
  total_outflow : ℚ
  net_cash_flow : ℚ
deriving DecidableEq, Repr

/-- The `df['period']` cell of a row (lines 381-390 / 667-676):
`strftime` on `NaT` yields float NaN (`none`), while
`to_period(...).astype(str)` renders `NaT` as the *string* `'NaT'`. -/
def periodCell (g : TimeGrouping) : PyVal Date → Option String
  | PyVal.val d => some (periodLabel g d)
  | _ => match g with
    | TimeGrouping.weekly => some "NaT"
    | TimeGrouping.quarterly => some "NaT"
    | _ => none

/-- The bucket `df[df['period'] == p]` (a float-NaN cell equals nothing,
including another NaN). -/
def periodRows (g : TimeGrouping) (df : List Tx) (p : String) : List Tx :=
  df.filter fun t => periodCell g t.date == some p

/-- `sorted(df['period'].unique())` after the mixed-type guard: either
every cell is a string label (sorted distinct labels) or every cell is
float NaN (`unique` keeps a single NaN, modelled by the `"nan"` sentinel,
which no strftime label can collide with and whose bucket is empty). -/
def periodNames (g : TimeGrouping) (df : List Tx) : List String :=
  if (df.map fun t => periodCell g t.date).any Option.isNone then ["nan"]
  else sortedUnique (df.filterMap fun t => periodCell g t.date)

/-- The per-period loop of `CashFlowReport._generate_report` (lines
393-411): walk the sorted period names, accumulating the running balance
strictly left to right. -/
def cfPeriods (g : TimeGrouping) (df : List Tx) : ℚ → List String → List CFPeriod
  | _, [] => []
  | bal, p :: rest =>
      let rows := periodRows g df p
      let amts := amountsOf rows
      let inflow := (amts.filter fun a => decide (0 < a)).sum
      let outflow := |(amts.filter fun a => decide (a < 0)).sum|
      let nf := inflow - outflow
      { period := p, inflow := inflow, outflow := outflow, net_flow := nf,
        running_balance := bal + nf, transaction_count := rows.length } ::
        cfPeriods g df (bal + nf) rest

/-- The zero-valued cash-flow result (lines 366-375). -/
def zeroCF (g : TimeGrouping) : CFReport :=
  { grouping := g.value, period := "", periods := [], total_inflow := 0,
    total_outflow := 0, net_cash_flow := 0 }

/-- `CashFlowReport._generate_report` (lines 362-424). -/
def cash_flow (txs : List Tx) (filters : ReportFilter) (g : TimeGrouping) :
    Except PyError CFReport :=
  let df := apply_filters txs filters
  if df.isEmpty || !hasDateCol txs then Except.ok (zeroCF g)
  else
    let cells := df.map fun t => periodCell g t.date
    if cells.any Option.isNone && cells.any Option.isSome then
      Except.error PyError.typeError
    else if !hasAmountCol txs then Except.error (PyError.keyError "amount")
    else
      let periods := cfPeriods g df 0 (periodNames g df)
      Except.ok
        { grouping := g.value,
          period := match periods.head?, periods.getLast? with
            | some p0, some pl => p0.period ++ " to " ++ pl.period
            | _, _ => "",
          periods := periods,
          total_inflow := (periods.map fun p => p.inflow).sum,
          total_outflow := (periods.map fun p => p.outflow).sum,
          net_cash_flow := (periods.map fun p => p.inflow).sum -
            (periods.map fun p => p.outflow).sum }

structure CatEntry where
  category : String
  total : ℚ
  count : Nat
  average : Option ℚ
  min : Option ℚ
  max : Option ℚ
  std_sq : ℚ
  percentage_of_total : ℚ
deriving DecidableEq, Repr

structure CatReport where
  categories : List CatEntry
  total_amount : ℚ
  category_count : Nat
deriving DecidableEq, Repr

/-- One category row (lines 499-510): group statistics over the non-null
amounts; a NaN `std` (fewer than two observations) is mapped to `0.0` by
the `pd.notna` guard; `average`/`min`/`max` stay NaN (`none`) for a group
with no numeric amount. -/
def catEntryOf (df : List Tx) (total : ℚ) (k : String) : CatEntry :=
  let g := amountsOf (groupRows df (fun t => t.category) k)
  { category := k, total := g.sum, count := g.length,
    average := if g.length = 0 then none else some (g.sum / (g.length : ℚ)),
    min := g.min?, max := g.max?,
    std_sq := (pandasStdSq g).getD 0,
    percentage_of_total := if total ≠ 0 then |g.sum| / |total| * 100 else 0 }

/-- `CategoryAnalysisReport._generate_report` (lines 471-517). -/
def category_analysis (txs : List Tx) (filters : ReportFilter)
    (top_n : Option Nat) : Except PyError CatReport :=
  let df := apply_filters txs filters
  if df.isEmpty || !hasCategoryCol txs then
    Except.ok { categories := [], total_amount := 0, category_count := 0 }
  else if !hasAmountCol txs then Except.error (PyError.keyError "amount")
  else
    let total := (amountsOf df).sum
    let entries := List.insertionSort (fun a b : CatEntry => b.total ≤ a.total)
      ((groupKeys df (fun t => t.category)).map (catEntryOf df total))
    let entries2 := match top_n with
      | some n => if n ≠ 0 then entries.take n else entries
      | none => entries
    Except.ok
      { categories := entries2, total_amount := total,
        category_count := entries2.length }

structure MerchEntry where
  merchant : String
  total : ℚ
  count : Nat
  average : Option ℚ
  primary_category : String
  percentage_of_total : ℚ
deriving DecidableEq, Repr

structure MerchReport where
  merchants : List MerchEntry
  total_amount : ℚ
  merchant_count : Nat
deriving DecidableEq, Repr

/-- One merchant row (lines 578-603): amount statistics plus the modal
category of the merchant's rows (`mode()` drops NaN; empty mode → `''`). -/
def merchEntryOf (df : List Tx) (total : ℚ) (k : String) : MerchEntry :=
  let rows := groupRows df (fun t => t.merchant) k
  let g := amountsOf rows
  { merchant := k, total := g.sum, count := g.length,
    average := if g.length = 0 then none else some (g.sum / (g.length : ℚ)),
    primary_category := pyModeFirst (rows.filterMap fun t => t.category),
    percentage_of_total := if total ≠ 0 then |g.sum| / |total| * 100 else 0 }

/-- `MerchantAnalysisReport._generate_report` (lines 565-610): group by
merchant, sort by absolute total descending, truncate with `head(top_n)`. -/
def merchant_analysis (txs : List Tx) (filters : ReportFilter)
    (top_n : Nat) : Except PyError MerchReport :=
  let df := apply_filters txs filters
  if df.isEmpty || !hasMerchantCol txs then
    Except.ok { merchants := [], total_amount := 0, merchant_count := 0 }
  else if !hasAmountCol txs then Except.error (PyError.keyError "amount")
  else if !hasCategoryCol txs then Except.error (PyError.keyError "category")
  else
    let total := (amountsOf df).sum
    let entries := List.insertionSort (fun a b : MerchEntry => |b.total| ≤ |a.total|)
      ((groupKeys df (fun t => t.merchant)).map (merchEntryOf df total))
    let entries2 := entries.take top_n
    Except.ok
      { merchants := entries2, total_amount := total,
        merchant_count := entries2.length }

structure TrendPeriod where
  period : String
  income : ℚ
  expenses : ℚ
  net : ℚ
  transaction_count : Nat
  top_expense_category : Option String
deriving DecidableEq, Repr

structure TrendReport where
  grouping : String
  periods : List TrendPeriod
deriving DecidableEq, Repr

/-- `cat_totals.idxmin()`: the first key (in sorted key order) attaining
the minimal group sum. -/
def idxminBy (keys : List String) (f : String → ℚ) : Option String :=
  match keys with
  | [] => none
  | k :: rest => some (rest.foldl (fun acc k2 => if f k2 < f acc then k2 else acc) k)

/-- The top-expense-category computation of one trend period (lines
687-695): most negative summed category of the period's negative rows. -/
def trendTop (hasCat : Bool) (rows : List Tx) : Option String :=
  if hasCat then
    let neg := rows.filter (amountMask fun a => decide (a < 0))
    if 0 < neg.length then
      idxminBy (groupKeys neg (fun t => t.category)) fun k =>
        (amountsOf (groupRows neg (fun t => t.category) k)).sum
    else none
  else none

/-- The per-period loop of `TrendAnalysisReport._generate_report`
(lines 678-704). -/
def trendPeriods (hasCat : Bool) (g : TimeGrouping) (df : List Tx)
    (names : List String) : List TrendPeriod :=
  names.map fun p =>
    let rows := periodRows g df p
    let amts := amountsOf rows
    let income := (amts.filter fun a => decide (0 < a)).sum
    let expenses := |(amts.filter fun a => decide (a < 0)).sum|
    { period := p, income := income, expenses := expenses,
      net := income - expenses, transaction_count := rows.length,
      top_expense_category := trendTop hasCat rows }

/-- `TrendAnalysisReport._generate_report` (lines 652-710). -/
def trend_analysis (txs : List Tx) (filters : ReportFilter)
    (g : TimeGrouping) : Except PyError TrendReport :=
  let df := apply_filters txs filters
  if df.isEmpty || !hasDateCol txs then
    Except.ok { grouping := g.value, periods := [] }
  else
    let cells := df.map fun t => periodCell g t.date
    if cells.any Option.isNone && cells.any Option.isSome then
      Except.error PyError.typeError
    else if !hasAmountCol txs then Except.error (PyError.keyError "amount")
    else Except.ok
      { grouping := g.value,
        periods := trendPeriods (hasCategoryCol txs) g df (periodNames g df) }

structure AcctEntry where
  account : String
  income : ℚ
  expenses : ℚ
  balance_change : ℚ
  transaction_count : Nat
deriving DecidableEq, Repr

structure AcctReport where
  accounts : List AcctEntry
  total_balance_change : ℚ
deriving DecidableEq, Repr

/-- `sorted(df['account'].unique())` after the mixed-type guard (same
float/str `sorted()` hazard as the period column): all-string cells give
the sorted distinct accounts; an all-NaN column gives the single NaN key,
whose bucket is empty. -/
def acctNames (df : List Tx) : List String :=
  if (df.map fun t => t.account).any Option.isNone then ["nan"]
  else sortedUnique (df.filterMap fun t => t.account)

/-- `AccountSummaryReport._generate_report` (lines 749-786). -/
def account_summary (txs : List Tx) (filters : ReportFilter) :
    Except PyError AcctReport :=
  let df := apply_filters txs filters
  if df.isEmpty || !hasAccountCol txs then
    Except.ok { accounts := [], total_balance_change := 0 }
  else if ((df.map fun t => t.account).any Option.isNone &&
      (df.map fun t => t.account).any Option.isSome) then
    Except.error PyError.typeError
  else if !hasAmountCol txs then Except.error (PyError.keyError "amount")
  else
    let entries : List AcctEntry := (acctNames df).map fun name =>
      let rows := df.filter fun t => t.account == some name
      let amts := amountsOf rows
      let income := (amts.filter fun a => decide (0 < a)).sum
      let expenses := |(amts.filter fun a => decide (a < 0)).sum|
      { account := name, income := income, expenses := expenses,
        balance_change := income - expenses, transaction_count := rows.length }
    let sortedE := List.insertionSort
      (fun a b : AcctEntry => |b.balance_change| ≤ |a.balance_change|) entries
    Except.ok
      { accounts := sortedE,
        total_balance_change := (sortedE.map fun a => a.balance_change).sum }

/-! ## Custom reports and the builder facade -/

/-- `SortOrder` (lines 34-37). -/
inductive SortOrder
  | asc
  | desc
deriving DecidableEq, Repr

/-- `ReportSort` (lines 65-69). -/
structure ReportSort where
  field : String
  order : SortOrder := SortOrder.desc
deriving DecidableEq, Repr

/-- Key comparison of `sort_values(by=field, ascending=asc)`: rows with a
missing/NaN cell always sort last (`na_position='last'`), remaining rows
compare by the column's natural order. -/
def optKeyLe {α : Type} (le : α → α → Bool) (asc : Bool) :
    Option α → Option α → Bool
  | none, none => true
  | none, some _ => false
  | some _, none => true
  | some a, some b => if asc then le a b else le b a

/-- The numeric cell of the `date` column. -/
def dateKey (t : Tx) : Option Date :=
  match t.date with
  | PyVal.val d => some d
  | _ => none

/-- The numeric cell of the `amount` column. -/
def amountKey (t : Tx) : Option ℚ :=
  match t.amount with
  | PyVal.val a => some a
  | _ => none

/-- `BaseReport.apply_sort` (lines 167-182): identity for an empty frame
or an unknown field, otherwise a deterministic sort on the named column. -/
def apply_sort (txs : List Tx) (df : List Tx) (field : String)
    (asc : Bool) : List Tx :=
  if df.isEmpty || !hasColName txs field then df
  else match field with
    | "date" => List.insertionSort
        (fun a b => optKeyLe Date.leB asc (dateKey a) (dateKey b) = true) df
    | "amount" => List.insertionSort
        (fun a b => optKeyLe (fun x y : ℚ => decide (x ≤ y)) asc
          (amountKey a) (amountKey b) = true) df
    | "category" => List.insertionSort
        (fun a b => optKeyLe pyStrLe asc a.category b.category = true) df
    | "merchant" => List.insertionSort
        (fun a b => optKeyLe pyStrLe asc a.merchant b.merchant = true) df
    | "account" => List.insertionSort
        (fun a b => optKeyLe pyStrLe asc a.account b.account = true) df
    | "description" => List.insertionSort
        (fun a b => optKeyLe pyStrLe asc a.description b.description = true) df
    | "notes" => List.insertionSort
        (fun a b => optKeyLe pyStrLe asc a.notes b.notes = true) df
    | _ => df

/-- A `groupby` key of `custom_report`: the grouping column may hold
strings, amounts or dates. -/
inductive GKey
  | s (v : String)
  | q (v : ℚ)
  | d (v : Date)
deriving DecidableEq, Repr

structure CustomRow where
  key : GKey
  total : ℚ
  count : Nat
  average : Option ℚ
  min : Option ℚ
  max : Option ℚ
deriving DecidableEq, Repr

/-- The two shapes of `custom_report`'s return dict: grouped aggregates,
or the filtered records verbatim. -/
inductive CustomResult
  | grouped (grouped_by : String) (data : List CustomRow)
      (total_amount : ℚ) (transaction_count : Nat)
  | flat (transactions : List Tx) (total_amount : ℚ)
      (transaction_count : Nat)
deriving DecidableEq, Repr

/-- The amount aggregates of one custom-report group (lines 936-939). -/
def customAgg (rows : List Tx) (key : GKey) : CustomRow :=
  let g := amountsOf rows
  { key := key, total := g.sum, count := g.length,
    average := if g.length = 0 then none else some (g.sum / (g.length : ℚ)),
    min := g.min?, max := g.max? }

def sortedUniqueDates (l : List Date) : List Date :=
  List.insertionSort (fun a b => Date.leB a b = true) l.dedup

def sortedUniqueRats (l : List ℚ) : List ℚ :=
  List.insertionSort (fun a b : ℚ => a ≤ b) l.dedup

/-- `df.groupby(group_by).agg({'amount': [...]})` rows, by column kind
(keys sorted, NaN keys dropped). -/
def customRows (df : List Tx) (name : String) : List CustomRow :=
  match name with
  | "date" => (sortedUniqueDates (df.filterMap dateKey)).map fun d =>
      customAgg (df.filter fun t => dateKey t == some d) (GKey.d d)
  | "category" => (groupKeys df fun t => t.category).map fun k =>
      customAgg (groupRows df (fun t => t.category) k) (GKey.s k)
  | "merchant" => (groupKeys df fun t => t.merchant).map fun k =>
      customAgg (groupRows df (fun t => t.merchant) k) (GKey.s k)
  | "account" => (groupKeys df fun t => t.account).map fun k =>
      customAgg (groupRows df (fun t => t.account) k) (GKey.s k)
  | "description" => (groupKeys df fun t => t.description).map fun k =>
      customAgg (groupRows df (fun t => t.description) k) (GKey.s k)
  | "notes" => (groupKeys df fun t => t.notes).map fun k =>
      customAgg (groupRows df (fun t => t.notes) k) (GKey.s k)
  | _ => []

/-- The ungrouped branch of `custom_report` (lines 948-954): the filtered
records verbatim plus `float(df['amount'].sum())` — which raises
`KeyError` whenever the frame has no `amount` column, in particular for an
empty transaction list (an empty DataFrame has no columns at all). -/
def customFlat (txs : List Tx) (df : List Tx) : Except PyError CustomResult :=
  if !hasAmountCol txs then Except.error (PyError.keyError "amount")
  else Except.ok (CustomResult.flat df ((amountsOf df).sum) df.length)

/-- `ReportBuilder.custom_report` (lines 914-954).  Grouping by the
`amount` column itself cannot be aggregated over `amount` again and
raises, like any missing aggregation column, a `KeyError`. -/
def custom_report (txs : List Tx) (filters : ReportFilter)
    (sort : Option ReportSort) (group_by : Option String) :
    Except PyError CustomResult :=
  let df0 := apply_filters txs filters
  let df := match sort with
    | some s0 => apply_sort txs df0 s0.field (s0.order == SortOrder.asc)
    | none => df0
  match group_by with
  | some name =>
      if !name.isEmpty && hasColName txs name then
        if name == "amount" then Except.error (PyError.keyError "amount")
        else if !hasAmountCol txs then Except.error (PyError.keyError "amount")
        else Except.ok (CustomResult.grouped name (customRows df name)
          ((amountsOf df).sum) df.length)
      else customFlat txs df
  | none => customFlat txs df

/-- One request to the `ReportBuilder` facade (lines 814-954), with the
type-specific parameters of each generator. -/
inductive ReportRequest
  | pl (filters : ReportFilter)
  | cf (filters : ReportFilter) (g : TimeGrouping)
  | cat (filters : ReportFilter) (top_n : Option Nat)
  | merch (filters : ReportFilter) (top_n : Nat)
  | trend (filters : ReportFilter) (g : TimeGrouping)
  | acct (filters : ReportFilter)
  | custom (filters : ReportFilter) (sort : Option ReportSort)
      (group_by : Option String)

/-- The result of one facade call. -/
inductive ReportOutput
  | pl (r : Except PyError PLReport)
  | cf (r : Except PyError CFReport)
  | cat (r : Except PyError CatReport)
  | merch (r : Except PyError MerchReport)
  | trend (r : Except PyError TrendReport)
  | acct (r : Except PyError AcctReport)
  | custom (r : Except PyError CustomResult)

/-- One builder method call as a state transition: the method reads the
held transaction list, computes the report entirely on DataFrame copies
(`pd.DataFrame(transactions)` copies the dict values; `apply_filters`
starts from `self.df.copy()`; the sign subsets are taken with `.copy()`;
the added `period`/`abs_total` columns land on those copies), and leaves
the transaction list behind unchanged as the builder's state. -/
def runReport (txs : List Tx) : ReportRequest → ReportOutput × List Tx
  | ReportRequest.pl f => (ReportOutput.pl (profit_and_loss txs f), txs)
  | ReportRequest.cf f g => (ReportOutput.cf (cash_flow txs f g), txs)
  | ReportRequest.cat f n => (ReportOutput.cat (category_analysis txs f n), txs)
  | ReportRequest.merch f n => (ReportOutput.merch (merchant_analysis txs f n), txs)
  | ReportRequest.trend f g => (ReportOutput.trend (trend_analysis txs f g), txs)
  | ReportRequest.acct f => (ReportOutput.acct (account_summary txs f), txs)
  | ReportRequest.custom f s gb => (ReportOutput.custom (custom_report txs f s gb), txs)

/-! ## Spec-side comparison definitions

The next definitions follow the *specification's words* rather than the
source; they exist only to be compared with the source-derived pipeline. -/

/-- Case-insensitive anchored literal prefix test. -/
def charPrefix : List Char → List Char → Bool
  | [], _ => true
  | _ :: _, [] => false
  | a :: as, b :: bs => a.toLower == b.toLower && charPrefix as bs

/-- Case-insensitive literal substring occurrence. -/
def charSubstring (p : List Char) : List Char → Bool
  | [] => charPrefix p []
  | c :: cs => charPrefix p (c :: cs) || charSubstring p cs

/-- Modelled from the spec: "merchant list uses substring,
case-insensitive, OR-across-list matching" — the term occurs literally,
case-insensitively, inside the merchant string. -/
def specSubstringMatch (term s : String) : Bool :=
  charSubstring term.data s.data

/-- Modelled from the spec: population standard deviation (squared, to
stay in `ℚ`): `Σ (x − μ)² / n`. -/
def populationVarianceQ (l : List ℚ) : ℚ :=
  if l.length = 0 then 0
  else (l.map fun x => (x - l.sum / (l.length : ℚ)) ^ 2).sum / (l.length : ℚ)

/-- Sample variance (divisor `n − 1`, the pandas `ddof=1` convention), the
formula of the amended standard-deviation claim; `0` below two
observations. -/
def sampleVarianceQ (l : List ℚ) : ℚ :=
  if l.length ≤ 1 then 0
  else (l.map fun x => (x - l.sum / (l.length : ℚ)) ^ 2).sum / ((l.length : ℚ) - 1)

/-- Characters with special meaning to Python regular expressions. -/
def regexMeta : List Char :=
  ['.', '*', '+', '?', '(', ')', '[', ']', Char.ofNat 123, Char.ofNat 125,
    '|', '^', '$', '\\']

/-- A term that the regex engine treats as a literal string. -/
def regexSafe (s : String) : Bool :=
  s.data.all fun c => !(regexMeta.contains c)

/-! ## C10 — empty-valued filter options are no-ops -/

/-- C10: in `apply_filters`, an option holding the empty string
(`description_contains`, `notes_contains`) or the empty list
(`categories`, `exclude_categories`, `merchants`, `exclude_merchants`,
`accounts`) behaves exactly as if the option were not set — Python
truthiness skips the whole pass, so no record is excluded; in particular
`description_contains = ""` does not test "field present and non-empty"
and keeps every record. -/
theorem C10_empty_filter_values_are_no_ops (txs : List Tx) (f : ReportFilter) :
    apply_filters txs { f with categories := some [] } =
        apply_filters txs { f with categories := none } ∧
      apply_filters txs { f with exclude_categories := some [] } =
        apply_filters txs { f with exclude_categories := none } ∧
      apply_filters txs { f with merchants := some [] } =
        apply_filters txs { f with merchants := none } ∧
      apply_filters txs { f with exclude_merchants := some [] } =
        apply_filters txs { f with exclude_merchants := none } ∧
      apply_filters txs { f with accounts := some [] } =
        apply_filters txs { f with accounts := none } ∧
      apply_filters txs { f with description_contains := some "" } =
        apply_filters txs { f with description_contains := none } ∧
      apply_filters txs { f with notes_contains := some "" } =
        apply_filters txs { f with notes_contains := none } :=
  ⟨rfl, rfl, rfl, rfl, rfl, rfl, rfl⟩

/-! ## C1 — behaviour of every generator on the empty input -/

/-- C1: on the empty transaction list the six class-based generators do
return their valid zero-valued results with empty group lists — but
`custom_report` raises: its unguarded `float(df['amount'].sum())` hits a
DataFrame that has no `amount` column (an empty frame has no columns at
all), contradicting the never-raise claim. -/
theorem C1_empty_input_evaluation :
    profit_and_loss [] {} = Except.ok emptyPL ∧
      cash_flow [] {} TimeGrouping.monthly =
        Except.ok (zeroCF TimeGrouping.monthly) ∧
      category_analysis [] {} none =
        Except.ok { categories := [], total_amount := 0, category_count := 0 } ∧
      merchant_analysis [] {} 20 =
        Except.ok { merchants := [], total_amount := 0, merchant_count := 0 } ∧
      trend_analysis [] {} TimeGrouping.monthly =
        Except.ok { grouping := "monthly", periods := [] } ∧
      account_summary [] {} =
        Except.ok { accounts := [], total_balance_change := 0 } ∧
      custom_report [] {} none none = Except.error (PyError.keyError "amount") :=
  ⟨rfl, rfl, rfl, rfl, rfl, rfl, rfl⟩

/-! ## C9 — no input mutation, identical repeated results -/

/-- C9: a facade call leaves the builder's transaction list unchanged
(every frame the generators touch is a copy), and repeating the identical
call on the resulting state yields the identical result — the generators
are pure functions of (transaction list, filter spec, parameters). -/
theorem C9_no_mutation_and_idempotent (txs : List Tx) (req : ReportRequest) :
    (runReport txs req).2 = txs ∧
      runReport (runReport txs req).2 req = runReport txs req := by
  cases req <;> exact ⟨rfl, rfl⟩

/-! ## C6 — merchant allow-list matching -/

theorem compileTerm_matchHere (p : List Char) (hp : ∀ c ∈ p, c ≠ '.') :
    ∀ s, matchHere (p.map fun c => if c = '.' then RAtom.dot else RAtom.lit c) s
      = charPrefix p s := by
  induction p with
  | nil => intro s; rfl
  | cons a as ih =>
      intro s
      have ha : a ≠ '.' := hp a (by simp)
      have has : ∀ c ∈ as, c ≠ '.' := fun c hc => hp c (by simp [hc])
      cases s with
      | nil => simp [matchHere, charPrefix, ha]
      | cons b bs =>
          simp [matchHere, charPrefix, ha, atomMatches, ih has bs]

theorem searchFrom_eq_charSubstring (p : List Char) (hp : ∀ c ∈ p, c ≠ '.') :
    ∀ s, searchFrom (p.map fun c => if c = '.' then RAtom.dot else RAtom.lit c) s
      = charSubstring p s := by
  intro s
  induction s with
  | nil => simp [searchFrom, charSubstring, compileTerm_matchHere p hp]
  | cons c cs ih => simp [searchFrom, charSubstring, compileTerm_matchHere p hp, ih]

/-- On regex-safe terms (no metacharacters), the regex search the code
performs coincides with the literal case-insensitive substring test of the
specification. -/
theorem pyContains_eq_spec {term : String} (hsafe : regexSafe term = true)
    (s : String) : pyContains term s = specSubstringMatch term s := by
  have hp : ∀ c ∈ term.data, c ≠ '.' := by
    intro c hc hdot
    unfold regexSafe at hsafe
    rw [List.all_eq_true] at hsafe
    have := hsafe c hc
    subst hdot
    simp [regexMeta] at this
  unfold pyContains specSubstringMatch compileTerm
  exact searchFrom_eq_charSubstring term.data hp s.data

theorem pyContainsAny_eq_spec : ∀ (terms : List String) (m : String),
    (∀ t ∈ terms, regexSafe t = true) →
    pyContainsAny terms m = (terms.any fun t => specSubstringMatch t m) := by
  intro terms
  induction terms with
  | nil => intro m _; rfl
  | cons a l ih =>
      intro m hsafe
      unfold pyContainsAny at *
      simp only [List.any_cons]
      rw [pyContains_eq_spec (hsafe a (by simp)),
        ih m fun t ht => hsafe t (by simp [ht])]

/-- The merchant allow-list pass, isolated (every other option unset). -/
theorem apply_filters_merchants_only (txs : List Tx) (terms : List String) :
    apply_filters txs { merchants := some terms } =
      if txs.isEmpty then txs
      else if !terms.isEmpty && hasMerchantCol txs then
        txs.filter fun t => match t.merchant with
          | some m => pyContainsAny terms m
          | none => false
      else txs := rfl

/-- The merchant deny-list pass, isolated. -/
theorem apply_filters_exclude_merchants_only (txs : List Tx) (terms : List String) :
    apply_filters txs { exclude_merchants := some terms } =
      if txs.isEmpty then txs
      else if !terms.isEmpty && hasMerchantCol txs then
        txs.filter fun t => !(match t.merchant with
          | some m => pyContainsAny terms m
          | none => false)
      else txs := rfl

/-- C6 counterexample: the merchant terms are compiled as a regular
expression, not as literals — the term `"A.C"` passes the record with
merchant `"ABC"` (the dot matches any character) although `"A.C"` is not a
literal substring of `"ABC"`, refuting the claim as stated. -/
theorem C6_counterexample :
    apply_filters [{ merchant := some "ABC" }] { merchants := some ["A.C"] } =
        [{ merchant := some "ABC" }] ∧
      specSubstringMatch "A.C" "ABC" = false :=
  ⟨rfl, rfl⟩

/-- C6 (amended): for merchant terms free of regex metacharacters the
allow-list passes a record with a merchant field iff some listed term
occurs case-insensitively as a literal substring of the merchant string
(OR across the list), and the deny-list keeps exactly the records the
allow-list would reject. -/
theorem C6_amended (terms : List String) (txs : List Tx) (tx : Tx) (m : String)
    (hne : terms ≠ []) (hsafe : ∀ t ∈ terms, regexSafe t = true)
    (hm : tx.merchant = some m) :
    (tx ∈ apply_filters txs { merchants := some terms } ↔
      tx ∈ txs ∧ (terms.any fun t => specSubstringMatch t m) = true) ∧
    (tx ∈ apply_filters txs { exclude_merchants := some terms } ↔
      tx ∈ txs ∧ (terms.any fun t => specSubstringMatch t m) = false) := by
  have hemp : terms.isEmpty = false := by
    cases terms with
    | nil => exact absurd rfl hne
    | cons a l => rfl
  rw [apply_filters_merchants_only, apply_filters_exclude_merchants_only]
  by_cases htxs : txs.isEmpty
  · have hnil : txs = [] := by
      cases txs with
      | nil => rfl
      | cons a l => simp at htxs
    subst hnil
    simp
  · have h1 : txs.isEmpty = false := by
      revert htxs
      cases txs.isEmpty <;> simp
    by_cases hcol : hasMerchantCol txs
    · have hc : (!terms.isEmpty && hasMerchantCol txs) = true := by
        rw [hemp, hcol]
        rfl
      simp only [h1, hc, Bool.false_eq_true, if_false, if_true]
      constructor
      · rw [List.mem_filter]
        constructor
        · rintro ⟨ht, hp⟩
          refine ⟨ht, ?_⟩
          rw [hm] at hp
          have hp' : pyContainsAny terms m = true := hp
          rwa [pyContainsAny_eq_spec terms m hsafe] at hp'
        · rintro ⟨ht, hp⟩
          refine ⟨ht, ?_⟩
          rw [hm]
          show pyContainsAny terms m = true
          rwa [pyContainsAny_eq_spec terms m hsafe]
      · rw [List.mem_filter]
        constructor
        · rintro ⟨ht, hp⟩
          refine ⟨ht, ?_⟩
          rw [hm] at hp
          have hp' : (!(pyContainsAny terms m)) = true := hp
          rw [pyContainsAny_eq_spec terms m hsafe] at hp'
          revert hp'
          cases terms.any fun t => specSubstringMatch t m <;> simp
        · rintro ⟨ht, hp⟩
          refine ⟨ht, ?_⟩
          rw [hm]
          show (!(pyContainsAny terms m)) = true
          rw [pyContainsAny_eq_spec terms m hsafe, hp]
          rfl
    · have hnmem : tx ∉ txs := by
        intro hmem
        apply hcol
        unfold hasMerchantCol
        rw [List.any_eq_true]
        exact ⟨tx, hmem, by simp [hm]⟩
      have hcol' : hasMerchantCol txs = false := by
        revert hcol
        cases hasMerchantCol txs <;> simp
      have hc : (!terms.isEmpty && hasMerchantCol txs) = false := by
        rw [hcol']
        simp
      simp only [h1, hc, Bool.false_eq_true, if_false]
      simp [hnmem]

/-- C6 witness, the spec's scenario: the allow-list `["Amazon"]` passes
the record with merchant `"AMAZON.COM*AB1234"`, and the corresponding
deny-list drops it. -/
theorem C6_witness :
    (({ merchant := some "AMAZON.COM*AB1234" } : Tx) ∈
        apply_filters [{ merchant := some "AMAZON.COM*AB1234" }]
          { merchants := some ["Amazon"] }) ∧
      (({ merchant := some "AMAZON.COM*AB1234" } : Tx) ∉
        apply_filters [{ merchant := some "AMAZON.COM*AB1234" }]
          { exclude_merchants := some ["Amazon"] }) := by
  have h := C6_amended ["Amazon"] [{ merchant := some "AMAZON.COM*AB1234" }]
    { merchant := some "AMAZON.COM*AB1234" } "AMAZON.COM*AB1234"
    (by simp) (by decide) rfl
  constructor
  · exact h.1.mpr ⟨by simp, by decide⟩
  · intro hmem
    have hcontra := (h.2.mp hmem).2
    have : (["Amazon"].any fun t =>
        specSubstringMatch t "AMAZON.COM*AB1234") = true := by decide
    rw [this] at hcontra
    cases hcontra

/-! ## Shared lemmas on sorting and grouping -/

@[simp] theorem pyval_val_bne_absent {α : Type} [DecidableEq α] (a : α) :
    (PyVal.val a != PyVal.absent) = true := rfl

@[simp] theorem pyval_nan_bne_absent {α : Type} [DecidableEq α] :
    ((PyVal.nan : PyVal α) != PyVal.absent) = true := rfl

instance : IsTotal String fun a b => pyStrLe a b = true :=
  ⟨fun a b => charListLe_total a.data b.data⟩

instance : IsTrans String fun a b => pyStrLe a b = true :=
  ⟨fun _ _ _ hab hbc => charListLe_trans hab hbc⟩

theorem string_data_inj {a b : String} (h : a.data = b.data) : a = b := by
  cases a
  cases b
  exact congrArg String.mk (by simpa using h)

theorem mem_sortedUnique {a : String} {l : List String} :
    a ∈ sortedUnique l ↔ a ∈ l := by
  unfold sortedUnique
  rw [(List.perm_insertionSort _ _).mem_iff, List.mem_dedup]

theorem sortedUnique_nodup (l : List String) : (sortedUnique l).Nodup :=
  (List.perm_insertionSort _ _).symm.nodup (List.nodup_dedup l)

theorem sortedUnique_sorted (l : List String) :
    List.Pairwise (fun a b => pyStrLe a b = true) (sortedUnique l) :=
  List.sorted_insertionSort _ _

/-- The sorted distinct keys are strictly increasing in Python string
order. -/
theorem sortedUnique_strict (l : List String) :
    List.Pairwise (fun a b => pyStrLt a b = true) (sortedUnique l) := by
  have h1 := (sortedUnique_sorted l).and (sortedUnique_nodup l)
  exact h1.imp fun hab =>
    charListLt_of_le_of_ne hab.1 fun hd => hab.2 (string_data_inj hd)

instance : IsTotal PLCat fun a b => b.total ≤ a.total :=
  ⟨fun a b => le_total b.total a.total⟩

instance : IsTrans PLCat fun a b => b.total ≤ a.total :=
  ⟨fun _ _ _ h1 h2 => le_trans h2 h1⟩

instance : IsTotal CatEntry fun a b => b.total ≤ a.total :=
  ⟨fun a b => le_total b.total a.total⟩

instance : IsTrans CatEntry fun a b => b.total ≤ a.total :=
  ⟨fun _ _ _ h1 h2 => le_trans h2 h1⟩

instance : IsTotal MerchEntry fun a b => |b.total| ≤ |a.total| :=
  ⟨fun a b => le_total |b.total| |a.total|⟩

instance : IsTrans MerchEntry fun a b => |b.total| ≤ |a.total| :=
  ⟨fun _ _ _ h1 h2 => le_trans h2 h1⟩

instance : IsTotal AcctEntry fun a b => |b.balance_change| ≤ |a.balance_change| :=
  ⟨fun a b => le_total |b.balance_change| |a.balance_change|⟩

instance : IsTrans AcctEntry fun a b => |b.balance_change| ≤ |a.balance_change| :=
  ⟨fun _ _ _ h1 h2 => le_trans h2 h1⟩

/-- Filtering rows by an amount predicate commutes with extracting the
non-null amounts. -/
theorem amountsOf_filter (df : List Tx) (p : ℚ → Bool) :
    amountsOf (df.filter (amountMask p)) = (amountsOf df).filter p := by
  induction df with
  | nil => rfl
  | cons t l ih =>
      rw [List.filter_cons]
      cases ht : t.amount with
      | absent =>
          rw [if_neg (by simp [amountMask, ht])]
          rw [ih]
          unfold amountsOf
          rw [List.filterMap_cons, ht]
      | nan =>
          rw [if_neg (by simp [amountMask, ht])]
          rw [ih]
          unfold amountsOf
          rw [List.filterMap_cons, ht]
      | val a =>
          by_cases hp : p a
          · rw [if_pos (by simp [amountMask, ht, hp])]
            unfold amountsOf
            rw [List.filterMap_cons, List.filterMap_cons, ht]
            simp only [List.filter_cons]
            rw [if_pos (by simp [hp])]
            have := ih
            unfold amountsOf at this
            rw [this]
          · rw [if_neg (by simp [amountMask, ht, hp])]
            unfold amountsOf
            rw [List.filterMap_cons, ht]
            simp only [List.filter_cons]
            rw [if_neg (by simp [hp])]
            have := ih
            unfold amountsOf at this
            rw [this]

/-! ## C4 — Profit & Loss invariants -/

theorem mem_insertionSort {α : Type} (r : α → α → Prop) [DecidableRel r]
    {a : α} {l : List α} : a ∈ List.insertionSort r l ↔ a ∈ l :=
  (List.perm_insertionSort r l).mem_iff

/-- A nonempty masked row list contributes at least one amount. -/
theorem amountsOf_ne_nil_of_ne_nil {df : List Tx} (p : ℚ → Bool)
    (h : df.filter (amountMask p) ≠ []) :
    amountsOf (df.filter (amountMask p)) ≠ [] := by
  obtain ⟨t0, ht0⟩ := List.exists_mem_of_ne_nil _ h
  have hmem := List.mem_filter.mp ht0
  cases ha : t0.amount with
  | absent => unfold amountMask at hmem; rw [ha] at hmem; simp at hmem
  | nan => unfold amountMask at hmem; rw [ha] at hmem; simp at hmem
  | val a =>
      apply List.ne_nil_of_mem (a := a)
      unfold amountsOf
      rw [List.mem_filterMap]
      exact ⟨t0, ht0, by rw [ha]⟩

/-- Every element of the amount extraction of a masked row list satisfies
the mask predicate. -/
theorem amountsOf_filter_mem {df : List Tx} (p : ℚ → Bool) {x : ℚ}
    (hx : x ∈ amountsOf (df.filter (amountMask p))) : p x = true := by
  rw [amountsOf_filter] at hx
  exact (List.mem_filter.mp hx).2

/-- C4: in every Profit & Loss result, `total_income` is the sum of the
positive filtered amounts, `total_expenses` the absolute value of the sum
of the negative ones, and `net_income` their difference; every category
row's percentage equals its total divided by the respective grand total
times 100 (and is 0 whenever that grand total is 0); and both category
lists are sorted by total descending. -/
theorem C4_profit_and_loss_invariants (txs : List Tx) (filters : ReportFilter)
    (r : PLReport) (h : profit_and_loss txs filters = Except.ok r) :
    r.total_income =
        ((amountsOf (apply_filters txs filters)).filter fun a => decide (0 < a)).sum ∧
      r.total_expenses =
        |((amountsOf (apply_filters txs filters)).filter fun a => decide (a < 0)).sum| ∧
      r.net_income = r.total_income - r.total_expenses ∧
      (∀ e ∈ r.income_by_category,
        e.pct = e.total / r.total_income * 100 ∧ (r.total_income = 0 → e.pct = 0)) ∧
      (∀ e ∈ r.expenses_by_category,
        e.pct = e.total / r.total_expenses * 100 ∧ (r.total_expenses = 0 → e.pct = 0)) ∧
      List.Pairwise (fun a b : PLCat => b.total ≤ a.total) r.income_by_category ∧
      List.Pairwise (fun a b : PLCat => b.total ≤ a.total) r.expenses_by_category := by
  simp only [profit_and_loss] at h
  by_cases hempty : (apply_filters txs filters).isEmpty = true
  · rw [if_pos hempty] at h
    have hr : emptyPL = r := by injection h
    subst hr
    have hnil : apply_filters txs filters = [] := by
      cases hd : apply_filters txs filters with
      | nil => rfl
      | cons a l => rw [hd] at hempty; simp at hempty
    rw [hnil]
    refine ⟨rfl, by norm_num [emptyPL, amountsOf], by norm_num [emptyPL],
      by simp [emptyPL], by simp [emptyPL], by simp [emptyPL], by simp [emptyPL]⟩
  · rw [if_neg hempty] at h
    by_cases hcol : hasAmountCol txs = true
    · rw [if_neg (by simp [hcol])] at h
      have hr := (Except.ok.injEq _ _).mp h
      subst hr
      refine ⟨congrArg List.sum (amountsOf_filter _ _),
        congrArg (fun z : List ℚ => |z.sum|) (amountsOf_filter _ _), rfl, ?_, ?_, ?_, ?_⟩
      · intro e he
        simp only at he
        by_cases hguard : (!((apply_filters txs filters).filter
            (amountMask fun a => decide (0 < a))).isEmpty && hasCategoryCol txs) = true
        · rw [if_pos hguard] at he
          have hne : (apply_filters txs filters).filter
              (amountMask fun a => decide (0 < a)) ≠ [] := by
            have h1 := (Bool.and_eq_true _ _ |>.mp hguard).1
            intro hn
            rw [hn] at h1
            simp at h1
          have hpos : 0 < (amountsOf ((apply_filters txs filters).filter
              (amountMask fun a => decide (0 < a)))).sum := by
            apply List.sum_pos
            · intro x hx
              exact of_decide_eq_true (amountsOf_filter_mem _ hx)
            · exact amountsOf_ne_nil_of_ne_nil _ hne
          rw [mem_insertionSort] at he
          unfold plIncomeEntries at he
          rw [List.mem_map] at he
          obtain ⟨k, _, rfl⟩ := he
          simp only
          rw [if_pos hpos]
          exact ⟨rfl, fun h0 => absurd (h0 ▸ hpos) (lt_irrefl 0)⟩
        · rw [if_neg hguard] at he
          simp at he
      · intro e he
        simp only at he
        by_cases hguard : (!((apply_filters txs filters).filter
            (amountMask fun a => decide (a < 0))).isEmpty && hasCategoryCol txs) = true
        · rw [if_pos hguard] at he
          rw [mem_insertionSort] at he
          unfold plExpenseEntries at he
          rw [List.mem_map] at he
          obtain ⟨k, _, rfl⟩ := he
          simp only
          by_cases hpos : 0 < |(amountsOf ((apply_filters txs filters).filter
              (amountMask fun a => decide (a < 0)))).sum|
          · rw [if_pos hpos]
            exact ⟨rfl, fun h0 => absurd (h0 ▸ hpos) (lt_irrefl 0)⟩
          · rw [if_neg hpos]
            have hz : |(amountsOf ((apply_filters txs filters).filter
                (amountMask fun a => decide (a < 0)))).sum| = 0 := by
              rcases (abs_nonneg ((amountsOf ((apply_filters txs filters).filter
                  (amountMask fun a => decide (a < 0)))).sum)).lt_or_eq with h1 | h1
              · exact absurd h1 hpos
              · exact h1.symm
            rw [hz]
            norm_num
        · rw [if_neg hguard] at he
          simp at he
      · simp only
        by_cases hguard : (!((apply_filters txs filters).filter
            (amountMask fun a => decide (0 < a))).isEmpty && hasCategoryCol txs) = true
        · rw [if_pos hguard]
          exact List.sorted_insertionSort _ _
        · rw [if_neg hguard]
          exact List.Pairwise.nil
      · simp only
        by_cases hguard : (!((apply_filters txs filters).filter
            (amountMask fun a => decide (a < 0))).isEmpty && hasCategoryCol txs) = true
        · rw [if_pos hguard]
          exact List.sorted_insertionSort _ _
        · rw [if_neg hguard]
          exact List.Pairwise.nil
    · rw [if_pos (by simp [hcol])] at h
      cases h

/-- The spec's own three-transaction example (§8 of the specification). -/
def plDemoTxs : List Tx :=
  [{ date := PyVal.val ⟨2025, 1, 15⟩, amount := PyVal.val 100, category := some "Salary" },
   { date := PyVal.val ⟨2025, 1, 20⟩, amount := PyVal.val (-40), category := some "Groceries" },
   { date := PyVal.val ⟨2025, 2, 1⟩, amount := PyVal.val (-10), category := some "Groceries" }]

/-- The P&L result of the demo transactions, fully evaluated. -/
def plDemoReport : PLReport :=
  { total_income := 100, total_expenses := 50, net_income := 50,
    income_by_category :=
      [{ category := "Salary", total := 100, count := 1, average := 100, pct := 100 }],
    expenses_by_category :=
      [{ category := "Groceries", total := 50, count := 2, average := 25, pct := 100 }],
    transaction_count := 3, income_transaction_count := 1,
    expense_transaction_count := 2 }

theorem plDemo_eval : profit_and_loss plDemoTxs {} = Except.ok plDemoReport := by
  norm_num [profit_and_loss, apply_filters, plDemoTxs, plDemoReport, hasAmountCol,
    hasCategoryCol, amountMask, amountsOf, groupKeys, groupRows, sortedUnique, pyStrLe,
    charListLe, charListLt, plIncomeEntries, plExpenseEntries, List.insertionSort,
    List.orderedInsert, List.dedup, List.filter, List.filterMap, emptyPL]

/-- C4 witness: the claim instantiated on the spec's own example data. -/
theorem C4_witness :
    profit_and_loss plDemoTxs {} = Except.ok plDemoReport ∧
      plDemoReport.net_income = plDemoReport.total_income - plDemoReport.total_expenses ∧
      List.Pairwise (fun a b : PLCat => b.total ≤ a.total)
        plDemoReport.income_by_category :=
  ⟨plDemo_eval,
    (C4_profit_and_loss_invariants plDemoTxs {} plDemoReport plDemo_eval).2.2.1,
    (C4_profit_and_loss_invariants plDemoTxs {} plDemoReport plDemo_eval).2.2.2.2.2.1⟩

theorem cfPeriods_period_map (g : TimeGrouping) (df : List Tx) :
    ∀ (names : List String) (bal : ℚ),
      (cfPeriods g df bal names).map (fun e => e.period) = names := by
  intro names
  induction names with
  | nil => intro bal; rfl
  | cons p rest ih => intro bal; simp only [cfPeriods, List.map_cons, ih]

theorem cfPeriods_mem (g : TimeGrouping) (df : List Tx) :
    ∀ (names : List String) (bal : ℚ), ∀ e ∈ cfPeriods g df bal names,
      e.inflow = ((amountsOf (periodRows g df e.period)).filter
          fun a => decide (0 < a)).sum ∧
        e.outflow = |((amountsOf (periodRows g df e.period)).filter
          fun a => decide (a < 0)).sum| ∧
        e.net_flow = e.inflow - e.outflow ∧
        e.transaction_count = (periodRows g df e.period).length := by
  intro names
  induction names with
  | nil => intro bal e he; simp [cfPeriods] at he
  | cons p rest ih =>
      intro bal e he
      simp only [cfPeriods] at he
      rw [List.mem_cons] at he
      rcases he with rfl | he
      · exact ⟨rfl, rfl, rfl, rfl⟩
      · exact ih _ e he

theorem cfPeriods_length (g : TimeGrouping) (df : List Tx) :
    ∀ (names : List String) (bal : ℚ),
      (cfPeriods g df bal names).length = names.length := by
  intro names
  induction names with
  | nil => intro bal; rfl
  | cons p rest ih => intro bal; simp only [cfPeriods, List.length_cons, ih]

theorem cfPeriods_rb_get (g : TimeGrouping) (df : List Tx) :
    ∀ (names : List String) (bal : ℚ) (i : Nat)
      (hi : i < (cfPeriods g df bal names).length),
      ((cfPeriods g df bal names).get ⟨i, hi⟩).running_balance =
        bal + (((cfPeriods g df bal names).map fun e => e.net_flow).take (i + 1)).sum := by
  intro names
  induction names with
  | nil => intro bal i hi; simp [cfPeriods] at hi
  | cons p rest ih =>
      intro bal i hi
      cases i with
      | zero => simp [cfPeriods, List.get]
      | succ j =>
          have hlen : (cfPeriods g df bal (p :: rest)).length = rest.length + 1 := by
            rw [cfPeriods_length]
            rfl
          have hj' : j < rest.length := by omega
          simp only [cfPeriods, List.get_cons_succ, List.map_cons, List.take_succ_cons,
            List.sum_cons]
          rw [ih _ j (by rw [cfPeriods_length]; exact hj')]
          ring

theorem periodNames_strict (g : TimeGrouping) (df : List Tx) :
    List.Pairwise (fun a b => pyStrLt a b = true) (periodNames g df) := by
  unfold periodNames
  split
  · exact List.pairwise_singleton _ _
  · exact sortedUnique_strict _

/-- C3: in every Cash Flow result the period entries carry strictly
increasing (hence chronologically ordered, by the label-order property of
the time buckets) period labels; each period's inflow is the sum of its
positive amounts, its outflow the absolute value of the sum of its
negative amounts, and `net_flow = inflow − outflow`; the running balance
at index `i` is the strictly left-to-right cumulative sum of the first
`i + 1` net flows; and the last period's running balance is the sum of all
periods' net flows. -/
theorem C3_cash_flow_invariants (txs : List Tx) (filters : ReportFilter)
    (g : TimeGrouping) (r : CFReport) (h : cash_flow txs filters g = Except.ok r) :
    List.Pairwise (fun a b : CFPeriod => pyStrLt a.period b.period = true) r.periods ∧
      (∀ e ∈ r.periods,
        e.inflow = ((amountsOf (periodRows g (apply_filters txs filters) e.period)).filter
            fun a => decide (0 < a)).sum ∧
          e.outflow = |((amountsOf (periodRows g (apply_filters txs filters) e.period)).filter
            fun a => decide (a < 0)).sum| ∧
          e.net_flow = e.inflow - e.outflow) ∧
      (∀ i (hi : i < r.periods.length),
        (r.periods.get ⟨i, hi⟩).running_balance =
          ((r.periods.map fun e => e.net_flow).take (i + 1)).sum) ∧
      (∀ hne : r.periods ≠ [],
        (r.periods.getLast hne).running_balance =
          (r.periods.map fun e => e.net_flow).sum) := by
  simp only [cash_flow] at h
  by_cases hguard : ((apply_filters txs filters).isEmpty || !hasDateCol txs) = true
  · rw [if_pos hguard] at h
    have hr : zeroCF g = r := by injection h
    subst hr
    refine ⟨List.Pairwise.nil, ?_, ?_, ?_⟩
    · intro e he
      simp [zeroCF] at he
    · intro i hi
      simp [zeroCF] at hi
    · intro hne
      exact absurd rfl hne
  · rw [if_neg hguard] at h
    by_cases hmix : (((apply_filters txs filters).map fun t =>
        periodCell g t.date).any Option.isNone &&
        ((apply_filters txs filters).map fun t => periodCell g t.date).any
          Option.isSome) = true
    · rw [if_pos hmix] at h
      cases h
    · rw [if_neg hmix] at h
      by_cases hcol : hasAmountCol txs = true
      · rw [if_neg (by simp [hcol])] at h
        have hr := (Except.ok.injEq _ _).mp h
        subst hr
        refine ⟨?_, ?_, ?_, ?_⟩
        · have hmap := cfPeriods_period_map g (apply_filters txs filters)
            (periodNames g (apply_filters txs filters)) 0
          have hp := periodNames_strict g (apply_filters txs filters)
          rw [← hmap] at hp
          exact List.pairwise_map.mp hp
        · intro e he
          have := cfPeriods_mem g (apply_filters txs filters) _ 0 e he
          exact ⟨this.1, this.2.1, this.2.2.1⟩
        · intro i hi
          have := cfPeriods_rb_get g (apply_filters txs filters) _ 0 i hi
          rw [this, zero_add]
        · intro hne
          have hlen : 0 < ((cfPeriods g (apply_filters txs filters) 0
              (periodNames g (apply_filters txs filters)))).length :=
            List.length_pos.mpr hne
          rw [List.getLast_eq_get]
          have := cfPeriods_rb_get g (apply_filters txs filters) _ 0 _
            (by omega :
              (cfPeriods g (apply_filters txs filters) 0
                (periodNames g (apply_filters txs filters))).length - 1 <
              (cfPeriods g (apply_filters txs filters) 0
                (periodNames g (apply_filters txs filters))).length)
          rw [this, zero_add]
          have hlen2 : (cfPeriods g (apply_filters txs filters) 0
              (periodNames g (apply_filters txs filters))).length - 1 + 1 =
              ((cfPeriods g (apply_filters txs filters) 0
                (periodNames g (apply_filters txs filters))).map
                  fun e => e.net_flow).length := by
            rw [List.length_map]
            omega
          rw [hlen2, List.take_length]
      · rw [if_pos (by simp [hcol])] at h
        cases h

def cfDemoReport : CFReport :=
  { grouping := "monthly", period := "2025-01 to 2025-02",
    periods :=
      [{ period := "2025-01", inflow := 100, outflow := 40, net_flow := 60,
         running_balance := 60, transaction_count := 2 },
       { period := "2025-02", inflow := 0, outflow := 10, net_flow := -10,
         running_balance := 50, transaction_count := 1 }],
    total_inflow := 100, total_outflow := 50, net_cash_flow := 50 }

theorem cfDemo_eval :
    cash_flow plDemoTxs {} TimeGrouping.monthly = Except.ok cfDemoReport := by
  norm_num [cash_flow, apply_filters, plDemoTxs, cfDemoReport, hasAmountCol,
    hasDateCol, amountMask, amountsOf, periodNames, periodCell, periodLabel,
    monthlyChars, pad4, pad2, dchar, sortedUnique, pyStrLe, charListLe, charListLt,
    cfPeriods, periodRows, Date.leB, List.insertionSort, List.orderedInsert,
    List.dedup, List.filter, List.filterMap, zeroCF, TimeGrouping.value]
  decide

/-- C3 witness: the claim instantiated on the spec's own monthly cash-flow
scenario. -/
theorem C3_witness :
    cash_flow plDemoTxs {} TimeGrouping.monthly = Except.ok cfDemoReport ∧
      (∀ hne : cfDemoReport.periods ≠ [],
        (cfDemoReport.periods.getLast hne).running_balance =
          (cfDemoReport.periods.map fun e => e.net_flow).sum) :=
  ⟨cfDemo_eval,
    (C3_cash_flow_invariants plDemoTxs {} TimeGrouping.monthly cfDemoReport
      cfDemo_eval).2.2.2⟩

/-! ## C2 — Category Analysis percentages -/

theorem qsum_map_add {α : Type} (l : List α) (f g : α → ℚ) :
    (l.map fun x => f x + g x).sum = (l.map f).sum + (l.map g).sum := by
  induction l with
  | nil => simp
  | cons a t ih =>
      simp only [List.map_cons, List.sum_cons, ih]
      ring

theorem qsum_map_div_mul {α : Type} (l : List α) (f : α → ℚ) (c d : ℚ) :
    (l.map fun x => f x / c * d).sum = (l.map f).sum / c * d := by
  induction l with
  | nil => simp
  | cons a t ih =>
      simp only [List.map_cons, List.sum_cons, ih]
      ring

theorem qsum_map_ite {K : List String} (hK : K.Nodup) {c : String}
    (hc : c ∈ K) (a : ℚ) :
    (K.map fun k => if c = k then a else 0).sum = a := by
  induction K with
  | nil => exact absurd hc (List.not_mem_nil c)
  | cons k0 t ih =>
      rw [List.nodup_cons] at hK
      rw [List.mem_cons] at hc
      rw [List.map_cons, List.sum_cons]
      rcases hc with rfl | hc
      · rw [if_pos rfl]
        have hz : (t.map fun k => if c = k then a else 0).sum = 0 :=
          List.sum_eq_zero fun x hx => by
            obtain ⟨k, hk, rfl⟩ := List.mem_map.mp hx
            exact if_neg (by rintro rfl; exact hK.1 hk)
        rw [hz, add_zero]
      · rw [if_neg (by rintro rfl; exact hK.1 hc), zero_add]
        exact ih hK.2 hc

/-- Summing absolute values of a same-sign list equals the absolute value
of the sum (nonnegative case). -/
theorem qsum_abs_of_nonneg : ∀ l : List ℚ, (∀ x ∈ l, 0 ≤ x) →
    (l.map fun x => |x|).sum = |l.sum| := by
  intro l
  induction l with
  | nil => intro _; simp
  | cons a t ih =>
      intro h
      have ha : 0 ≤ a := h a (List.mem_cons_self a t)
      have ht : ∀ x ∈ t, 0 ≤ x := fun x hx => h x (List.mem_cons_of_mem a hx)
      have hts : 0 ≤ t.sum := List.sum_nonneg ht
      simp only [List.map_cons, List.sum_cons, ih ht]
      rw [abs_of_nonneg ha, abs_of_nonneg hts, abs_of_nonneg (add_nonneg ha hts)]

theorem qsum_nonpos : ∀ l : List ℚ, (∀ x ∈ l, x ≤ 0) → l.sum ≤ 0 := by
  intro l
  induction l with
  | nil => intro _; simp
  | cons a t ih =>
      intro h
      have ha : a ≤ 0 := h a (List.mem_cons_self a t)
      have ht : t.sum ≤ 0 := ih fun x hx => h x (List.mem_cons_of_mem a hx)
      rw [List.sum_cons]
      exact add_nonpos ha ht

/-- Summing absolute values of a same-sign list equals the absolute value
of the sum (nonpositive case). -/
theorem qsum_abs_of_nonpos : ∀ l : List ℚ, (∀ x ∈ l, x ≤ 0) →
    (l.map fun x => |x|).sum = |l.sum| := by
  intro l
  induction l with
  | nil => intro _; simp
  | cons a t ih =>
      intro h
      have ha : a ≤ 0 := h a (List.mem_cons_self a t)
      have ht : ∀ x ∈ t, x ≤ 0 := fun x hx => h x (List.mem_cons_of_mem a hx)
      have hts : t.sum ≤ 0 := qsum_nonpos t ht
      simp only [List.map_cons, List.sum_cons, ih ht]
      rw [abs_of_nonpos ha, abs_of_nonpos hts, abs_of_nonpos (add_nonpos ha hts)]
      ring

/-- Partition of the grand total: when every row carrying a numeric amount
has a category listed in the duplicate-free key list `K`, the per-key
group sums add up to the total amount sum. -/
theorem group_sum_partition {K : List String} (hK : K.Nodup) :
    ∀ df : List Tx,
      (∀ t ∈ df, ∀ a : ℚ, t.amount = PyVal.val a →
        ∃ c, t.category = some c ∧ c ∈ K) →
      (K.map fun k =>
        (amountsOf (groupRows df (fun t => t.category) k)).sum).sum =
      (amountsOf df).sum := by
  intro df
  induction df with
  | nil =>
      intro _
      rw [show amountsOf ([] : List Tx) = [] from rfl, List.sum_nil]
      exact List.sum_eq_zero fun x hx => by
        obtain ⟨k, _, rfl⟩ := List.mem_map.mp hx
        rfl
  | cons t l ih =>
      intro hcov
      have hcovl : ∀ t2 ∈ l, ∀ a : ℚ, t2.amount = PyVal.val a →
          ∃ c, t2.category = some c ∧ c ∈ K :=
        fun t2 ht2 => hcov t2 (List.mem_cons_of_mem t ht2)
      have hgroup : ∀ k, groupRows (t :: l) (fun t => t.category) k =
          if t.category == some k then t :: groupRows l (fun t => t.category) k
          else groupRows l (fun t => t.category) k := fun k => by
        unfold groupRows
        rw [List.filter_cons]
      cases ha : t.amount with
      | val a =>
          obtain ⟨c, hc, hcK⟩ := hcov t (List.mem_cons_self t l) a ha
          have hstep : ∀ k,
              (amountsOf (groupRows (t :: l) (fun t => t.category) k)).sum
              = (if c = k then a else 0) +
                (amountsOf (groupRows l (fun t => t.category) k)).sum := by
            intro k
            rw [hgroup k]
            by_cases hck : c = k
            · subst hck
              rw [if_pos (by rw [hc]; exact beq_self_eq_true _), if_pos rfl]
              simp only [amountsOf, List.filterMap_cons, ha, List.sum_cons]
            · rw [if_neg (by simp [hc, hck]), if_neg hck, zero_add]
          calc (K.map fun k =>
                (amountsOf (groupRows (t :: l) (fun t => t.category) k)).sum).sum
              = (K.map fun k => (if c = k then a else 0) +
                  (amountsOf (groupRows l (fun t => t.category) k)).sum).sum :=
                congrArg List.sum (List.map_congr_left fun k _ => hstep k)
            _ = a + (K.map fun k =>
                  (amountsOf (groupRows l (fun t => t.category) k)).sum).sum := by
                rw [qsum_map_add, qsum_map_ite hK hcK]
            _ = a + (amountsOf l).sum := by rw [ih hcovl]
            _ = (amountsOf (t :: l)).sum := by
                simp only [amountsOf, List.filterMap_cons, ha, List.sum_cons]
      | absent =>
          have hstep : ∀ k,
              amountsOf (groupRows (t :: l) (fun t => t.category) k)
              = amountsOf (groupRows l (fun t => t.category) k) := by
            intro k
            rw [hgroup k]
            by_cases hck : (t.category == some k) = true
            · rw [if_pos hck]
              simp only [amountsOf, List.filterMap_cons, ha]
            · rw [if_neg hck]
          have h2 : amountsOf (t :: l) = amountsOf l := by
            simp only [amountsOf, List.filterMap_cons, ha]
          rw [h2, ← ih hcovl]
          exact congrArg List.sum (List.map_congr_left fun k _ => by rw [hstep k])
      | nan =>
          have hstep : ∀ k,
              amountsOf (groupRows (t :: l) (fun t => t.category) k)
              = amountsOf (groupRows l (fun t => t.category) k) := by
            intro k
            rw [hgroup k]
            by_cases hck : (t.category == some k) = true
            · rw [if_pos hck]
              simp only [amountsOf, List.filterMap_cons, ha]
            · rw [if_neg hck]
          have h2 : amountsOf (t :: l) = amountsOf l := by
            simp only [amountsOf, List.filterMap_cons, ha]
          rw [h2, ← ih hcovl]
          exact congrArg List.sum (List.map_congr_left fun k _ => by rw [hstep k])

/-- Mixed-sign input refuting the sum-to-100 claim: one category with
total 100, one with total −50. -/
def catBadTxs : List Tx :=
  [{ category := some "a", amount := PyVal.val 100 },
   { category := some "b", amount := PyVal.val (-50) }]

/-- The Category Analysis result of `catBadTxs`, fully evaluated. -/
def catBadReport : CatReport :=
  { categories :=
      [{ category := "a", total := 100, count := 1, average := some 100,
         min := some 100, max := some 100, std_sq := 0,
         percentage_of_total := 200 },
       { category := "b", total := -50, count := 1, average := some (-50),
         min := some (-50), max := some (-50), std_sq := 0,
         percentage_of_total := 100 }],
    total_amount := 50, category_count := 2 }

/-- C2 counterexample: on `catBadTxs` the grand total is 50 ≠ 0, no
`top_n` truncation applies, yet the percentages sum to 300, not 100. -/
theorem C2_counterexample :
    category_analysis catBadTxs {} none = Except.ok catBadReport ∧
      catBadReport.total_amount ≠ 0 ∧
      (catBadReport.categories.map fun e => e.percentage_of_total).sum = 300 ∧
      (300 : ℚ) ≠ 100 := by
  refine ⟨?_, by norm_num [catBadReport], by norm_num [catBadReport], by norm_num⟩
  norm_num [category_analysis, apply_filters, catBadTxs, catBadReport, hasAmountCol,
    hasCategoryCol, amountsOf, groupKeys, groupRows, sortedUnique, pyStrLe,
    charListLe, charListLt, catEntryOf, pandasStdSq, List.insertionSort,
    List.orderedInsert, List.dedup, List.filter, List.filterMap]

/-- C2 (amended): in every Category Analysis result with
`total_amount ≠ 0` and no `top_n` truncation, each category's
`percentage_of_total` equals |category total| ÷ |grand total| × 100; the
percentages sum to exactly 100 only under two hypotheses the claim lacks:
all category totals share one sign, and every filtered row carrying a
numeric amount also carries a category (otherwise the sum can differ —
see the counterexample). -/
theorem C2_amended (txs : List Tx) (filters : ReportFilter) (r : CatReport)
    (h : category_analysis txs filters none = Except.ok r)
    (htot : r.total_amount ≠ 0)
    (hsign : (∀ e ∈ r.categories, 0 ≤ e.total) ∨ (∀ e ∈ r.categories, e.total ≤ 0))
    (hcov : ∀ t ∈ apply_filters txs filters, ∀ a : ℚ,
      t.amount = PyVal.val a → t.category.isSome) :
    (∀ e ∈ r.categories,
      e.percentage_of_total = |e.total| / |r.total_amount| * 100) ∧
    (r.categories.map fun e => e.percentage_of_total).sum = 100 := by
  simp only [category_analysis] at h
  by_cases hg1 : ((apply_filters txs filters).isEmpty || !hasCategoryCol txs) = true
  · rw [if_pos hg1] at h
    have hr := (Except.ok.injEq _ _).mp h
    subst hr
    simp at htot
  · rw [if_neg hg1] at h
    by_cases hg2 : (!hasAmountCol txs) = true
    · rw [if_pos hg2] at h
      cases h
    · rw [if_neg hg2] at h
      have hr := (Except.ok.injEq _ _).mp h
      subst hr
      have htot' : ((amountsOf (apply_filters txs filters)).sum : ℚ) ≠ 0 := htot
      constructor
      · intro e he
        obtain ⟨k, hk, rfl⟩ := List.mem_map.mp ((mem_insertionSort _).mp he)
        simp only [catEntryOf]
        rw [if_pos htot']
      · have hkey : ∀ k ∈ groupKeys (apply_filters txs filters) fun t => t.category,
            catEntryOf (apply_filters txs filters)
              (amountsOf (apply_filters txs filters)).sum k ∈
              List.insertionSort (fun a b : CatEntry => b.total ≤ a.total)
                ((groupKeys (apply_filters txs filters) fun t => t.category).map
                  (catEntryOf (apply_filters txs filters)
                    (amountsOf (apply_filters txs filters)).sum)) :=
          fun k hk => (mem_insertionSort _).mpr (List.mem_map_of_mem _ hk)
        have hperm := (List.perm_insertionSort (fun a b : CatEntry => b.total ≤ a.total)
          ((groupKeys (apply_filters txs filters) fun t => t.category).map
            (catEntryOf (apply_filters txs filters)
              (amountsOf (apply_filters txs filters)).sum))).map
          fun e => e.percentage_of_total
        rw [hperm.sum_eq, List.map_map]
        have hpct : ((groupKeys (apply_filters txs filters) fun t => t.category).map
            ((fun e : CatEntry => e.percentage_of_total) ∘
              catEntryOf (apply_filters txs filters)
                (amountsOf (apply_filters txs filters)).sum)) =
            ((groupKeys (apply_filters txs filters) fun t => t.category).map
              fun k => |(amountsOf (groupRows (apply_filters txs filters)
                (fun t => t.category) k)).sum| /
                |(amountsOf (apply_filters txs filters)).sum| * 100) := by
          refine List.map_congr_left fun k _ => ?_
          simp only [Function.comp, catEntryOf]
          rw [if_pos htot']
        rw [hpct, qsum_map_div_mul]
        have hpart : (((groupKeys (apply_filters txs filters) fun t => t.category)).map
            fun k => (amountsOf (groupRows (apply_filters txs filters)
              (fun t => t.category) k)).sum).sum =
            (amountsOf (apply_filters txs filters)).sum := by
          refine group_sum_partition (sortedUnique_nodup _) _ fun t ht a hval => ?_
          obtain ⟨c, hc⟩ := Option.isSome_iff_exists.mp (hcov t ht a hval)
          exact ⟨c, hc, mem_sortedUnique.mpr (List.mem_filterMap.mpr ⟨t, ht, hc⟩)⟩
        have habs : ((groupKeys (apply_filters txs filters) fun t => t.category).map
            fun k => |(amountsOf (groupRows (apply_filters txs filters)
              (fun t => t.category) k)).sum|).sum =
            |(amountsOf (apply_filters txs filters)).sum| := by
          have hvals : ((groupKeys (apply_filters txs filters) fun t => t.category).map
              fun k => |(amountsOf (groupRows (apply_filters txs filters)
                (fun t => t.category) k)).sum|) =
              (((groupKeys (apply_filters txs filters) fun t => t.category).map
                fun k => (amountsOf (groupRows (apply_filters txs filters)
                  (fun t => t.category) k)).sum).map fun x => |x|) := by
            rw [List.map_map]
            rfl
          rw [hvals]
          rcases hsign with hpos | hneg
          · rw [qsum_abs_of_nonneg _ fun x hx => ?_, hpart]
            obtain ⟨k, hk, rfl⟩ := List.mem_map.mp hx
            exact hpos _ (hkey k hk)
          · rw [qsum_abs_of_nonpos _ fun x hx => ?_, hpart]
            obtain ⟨k, hk, rfl⟩ := List.mem_map.mp hx
            exact hneg _ (hkey k hk)
        rw [habs, div_self (abs_ne_zero.mpr htot'), one_mul]

/-- C2 witness: a single-sign, fully-categorised input on which the
amended statement is exercised end to end. -/
def catGoodTxs : List Tx :=
  [{ category := some "a", amount := PyVal.val 75 },
   { category := some "b", amount := PyVal.val 25 }]

/-- The Category Analysis result of `catGoodTxs`, fully evaluated. -/
def catGoodReport : CatReport :=
  { categories :=
      [{ category := "a", total := 75, count := 1, average := some 75,
         min := some 75, max := some 75, std_sq := 0,
         percentage_of_total := 75 },
       { category := "b", total := 25, count := 1, average := some 25,
         min := some 25, max := some 25, std_sq := 0,
         percentage_of_total := 25 }],
    total_amount := 100, category_count := 2 }

theorem catGood_eval : category_analysis catGoodTxs {} none = Except.ok catGoodReport := by
  norm_num [category_analysis, apply_filters, catGoodTxs, catGoodReport, hasAmountCol,
    hasCategoryCol, amountsOf, groupKeys, groupRows, sortedUnique, pyStrLe,
    charListLe, charListLt, catEntryOf, pandasStdSq, List.insertionSort,
    List.orderedInsert, List.dedup, List.filter, List.filterMap]

theorem C2_witness :
    (∀ e ∈ catGoodReport.categories,
      e.percentage_of_total = |e.total| / |catGoodReport.total_amount| * 100) ∧
    (catGoodReport.categories.map fun e => e.percentage_of_total).sum = 100 :=
  C2_amended catGoodTxs {} catGoodReport catGood_eval
    (by norm_num [catGoodReport])
    (Or.inl (by intro e he; fin_cases he <;> norm_num [catGoodReport]))
    (by intro t ht a hval; fin_cases ht <;> rfl)

/-! ## C8 — standard deviation convention -/

/-- The `pd.notna` guard on `std` implements exactly the sample-variance
convention with 0 below two observations. -/
theorem pandasStdSq_getD (l : List ℚ) : (pandasStdSq l).getD 0 = sampleVarianceQ l := by
  unfold pandasStdSq sampleVarianceQ
  by_cases h : l.length < 2
  · rw [if_pos h, if_pos (by omega)]
    rfl
  · rw [if_neg h, if_neg (by omega)]
    rfl

/-- Two same-category transactions with amounts 0 and 2. -/
def stdBadTxs : List Tx :=
  [{ category := some "a", amount := PyVal.val 0 },
   { category := some "a", amount := PyVal.val 2 }]

/-- The Category Analysis result of `stdBadTxs`, fully evaluated: the
stored deviation squares to 2, the sample variance. -/
def stdBadReport : CatReport :=
  { categories :=
      [{ category := "a", total := 2, count := 2, average := some 1,
         min := some 0, max := some 2, std_sq := 2,
         percentage_of_total := 100 }],
    total_amount := 2, category_count := 1 }

theorem stdBad_eval : category_analysis stdBadTxs {} none = Except.ok stdBadReport := by
  norm_num [category_analysis, apply_filters, stdBadTxs, stdBadReport, hasAmountCol,
    hasCategoryCol, amountsOf, groupKeys, groupRows, sortedUnique, pyStrLe,
    charListLe, charListLt, catEntryOf, pandasStdSq, List.insertionSort,
    List.orderedInsert, List.dedup, List.filter, List.filterMap]

/-- C8 counterexample: the group amounts {0, 2} have population variance
1, but the code stores the sample variance 2 (`Series.std()` defaults to
`ddof=1`), so `std_dev` is not the population standard deviation. -/
theorem C8_counterexample :
    category_analysis stdBadTxs {} none = Except.ok stdBadReport ∧
      (stdBadReport.categories.map fun e => e.std_sq) = [2] ∧
      populationVarianceQ [0, 2] = 1 ∧
      sampleVarianceQ [0, 2] = 2 := by
  refine ⟨stdBad_eval, by norm_num [stdBadReport], ?_, ?_⟩
  · norm_num [populationVarianceQ]
  · norm_num [sampleVarianceQ]

/-- C8 (amended): each Category Analysis group stores the **sample**
standard deviation (`ddof=1`) of its amounts, not the population one; a
group with at most one numeric amount stores 0 (this half of the claim
holds: never undefined or NaN). -/
theorem C8_amended (txs : List Tx) (filters : ReportFilter) (top_n : Option Nat)
    (r : CatReport) (h : category_analysis txs filters top_n = Except.ok r) :
    ∀ e ∈ r.categories,
      e.std_sq = sampleVarianceQ (amountsOf (groupRows (apply_filters txs filters)
        (fun t => t.category) e.category)) ∧
      (e.count ≤ 1 → e.std_sq = 0) := by
  simp only [category_analysis] at h
  by_cases hg1 : ((apply_filters txs filters).isEmpty || !hasCategoryCol txs) = true
  · rw [if_pos hg1] at h
    have hr := (Except.ok.injEq _ _).mp h
    subst hr
    intro e he
    exact absurd he (List.not_mem_nil e)
  · rw [if_neg hg1] at h
    by_cases hg2 : (!hasAmountCol txs) = true
    · rw [if_pos hg2] at h
      cases h
    · rw [if_neg hg2] at h
      have hr := (Except.ok.injEq _ _).mp h
      subst hr
      intro e he
      set E := List.insertionSort (fun a b : CatEntry => b.total ≤ a.total)
        ((groupKeys (apply_filters txs filters) fun t => t.category).map
          (catEntryOf (apply_filters txs filters)
            (amountsOf (apply_filters txs filters)).sum)) with hE
      have he2 : e ∈ E := by
        cases top_n with
        | none => exact he
        | some n =>
            have he' : e ∈ (if n ≠ 0 then E.take n else E) := he
            by_cases hn : n ≠ 0
            · rw [if_pos hn] at he'
              exact List.take_subset n E he'
            · rw [if_neg hn] at he'
              exact he'
      rw [hE] at he2
      obtain ⟨k, hk, rfl⟩ := List.mem_map.mp ((mem_insertionSort _).mp he2)
      refine ⟨pandasStdSq_getD _, fun hcnt => ?_⟩
      have hcnt' : (amountsOf (groupRows (apply_filters txs filters)
          (fun t => t.category) k)).length ≤ 1 := hcnt
      show (pandasStdSq (amountsOf (groupRows (apply_filters txs filters)
        (fun t => t.category) k))).getD 0 = 0
      rw [pandasStdSq_getD]
      unfold sampleVarianceQ
      rw [if_pos hcnt']

/-- C8 witness: the amended statement exercised on `stdBadTxs`. -/
theorem C8_witness :
    category_analysis stdBadTxs {} none = Except.ok stdBadReport ∧
      ∀ e ∈ stdBadReport.categories,
        e.std_sq = sampleVarianceQ (amountsOf (groupRows (apply_filters stdBadTxs {})
          (fun t => t.category) e.category)) ∧
        (e.count ≤ 1 → e.std_sq = 0) :=
  ⟨stdBad_eval, C8_amended stdBadTxs {} none stdBadReport stdBad_eval⟩

/-! ## C7 — merchant mode tie-breaking and ordering -/

theorem foldl_max_init : ∀ (xs : List Nat) (a : Nat), a ≤ xs.foldl Nat.max a := by
  intro xs
  induction xs with
  | nil => intro a; exact le_refl a
  | cons x t ih =>
      intro a
      rw [List.foldl_cons]
      exact le_trans (Nat.le_max_left a x) (ih (Nat.max a x))

theorem le_foldl_max : ∀ (xs : List Nat) (a : Nat), ∀ x ∈ xs, x ≤ xs.foldl Nat.max a := by
  intro xs
  induction xs with
  | nil => intro a x hx; exact absurd hx (List.not_mem_nil x)
  | cons y t ih =>
      intro a x hx
      rw [List.foldl_cons]
      rcases List.mem_cons.mp hx with rfl | hx
      · exact le_trans (Nat.le_max_right a x) (foldl_max_init t (Nat.max a x))
      · exact ih (Nat.max a y) x hx

theorem foldl_max_mem : ∀ (xs : List Nat) (a : Nat),
    xs.foldl Nat.max a = a ∨ xs.foldl Nat.max a ∈ xs := by
  intro xs
  induction xs with
  | nil => intro a; exact Or.inl rfl
  | cons x t ih =>
      intro a
      rw [List.foldl_cons]
      rcases ih (Nat.max a x) with h | h
      · rcases Nat.le_total a x with hle | hle
        · refine Or.inr ?_
          rw [h]
          have hmx : Nat.max a x = x := Nat.max_eq_right hle
          rw [hmx]
          exact List.mem_cons_self x t
        · refine Or.inl ?_
          rw [h]
          exact Nat.max_eq_left hle
      · exact Or.inr (List.mem_cons_of_mem x h)

theorem countIn_pos {l : List String} {c : String} (hc : c ∈ l) : 0 < countIn l c := by
  unfold countIn
  have hmem : c ∈ l.filter fun x => x == c :=
    List.mem_filter.mpr ⟨hc, beq_self_eq_true c⟩
  exact List.length_pos.mpr (List.ne_nil_of_mem hmem)

theorem pyStrLe_refl (s : String) : pyStrLe s s = true := by
  unfold pyStrLe charListLe
  rw [charListLt_irrefl]
  rfl

theorem pyStrLe_of_lt {s t : String} (h : pyStrLt s t = true) : pyStrLe s t = true := by
  unfold pyStrLe charListLe
  unfold pyStrLt at h
  rw [charListLt_asymm h]
  rfl

theorem pyModeFirst_eq_head (l : List String) (cf : String) (rest : List String)
    (hfe : (sortedUnique l).filter
      (fun c => countIn l c == ((sortedUnique l).map (countIn l)).foldl Nat.max 0) =
      cf :: rest) :
    pyModeFirst l = cf := by
  simp only [pyModeFirst]
  rw [hfe]

/-- `series.mode()[0]`: a maximum-frequency value, and the code-point least
one among the maximum-frequency values (pandas returns the modes sorted). -/
theorem pyModeFirst_spec {l : List String} (hl : l ≠ []) :
    pyModeFirst l ∈ l ∧
      (∀ c ∈ l, countIn l c ≤ countIn l (pyModeFirst l)) ∧
      (∀ c ∈ l, countIn l c = countIn l (pyModeFirst l) →
        pyStrLe (pyModeFirst l) c = true) := by
  obtain ⟨c0, hc0⟩ := List.exists_mem_of_ne_nil l hl
  have hmax_ge : ∀ c ∈ l,
      countIn l c ≤ ((sortedUnique l).map (countIn l)).foldl Nat.max 0 :=
    fun c hc => le_foldl_max _ 0 _ (List.mem_map_of_mem _ (mem_sortedUnique.mpr hc))
  have hpos : 0 < ((sortedUnique l).map (countIn l)).foldl Nat.max 0 :=
    lt_of_lt_of_le (countIn_pos hc0) (hmax_ge c0 hc0)
  have hattain : ((sortedUnique l).map (countIn l)).foldl Nat.max 0 ∈
      (sortedUnique l).map (countIn l) := by
    rcases foldl_max_mem ((sortedUnique l).map (countIn l)) 0 with h | h
    · rw [h] at hpos
      exact absurd hpos (lt_irrefl 0)
    · exact h
  obtain ⟨cm, hcmu, hcm⟩ := List.mem_map.mp hattain
  have hfne : (sortedUnique l).filter
      (fun c => countIn l c == ((sortedUnique l).map (countIn l)).foldl Nat.max 0) ≠ [] :=
    List.ne_nil_of_mem (List.mem_filter.mpr ⟨hcmu, by rw [hcm]; exact beq_self_eq_true _⟩)
  cases hfe : (sortedUnique l).filter
      (fun c => countIn l c == ((sortedUnique l).map (countIn l)).foldl Nat.max 0) with
  | nil => exact absurd hfe hfne
  | cons cf rest =>
      have hm := pyModeFirst_eq_head l cf rest hfe
      have hcf : cf ∈ (sortedUnique l).filter
          (fun c => countIn l c == ((sortedUnique l).map (countIn l)).foldl Nat.max 0) := by
        rw [hfe]
        exact List.mem_cons_self cf rest
      have hcf2 := List.mem_filter.mp hcf
      have hcfcnt : countIn l cf = ((sortedUnique l).map (countIn l)).foldl Nat.max 0 :=
        beq_iff_eq.mp hcf2.2
      have hpw : List.Pairwise (fun a b => pyStrLt a b = true) (cf :: rest) := by
        rw [← hfe]
        exact List.Pairwise.sublist (List.filter_sublist _) (sortedUnique_strict l)
      refine ⟨?_, ?_, ?_⟩
      · rw [hm]
        exact mem_sortedUnique.mp hcf2.1
      · intro c hc
        rw [hm, hcfcnt]
        exact hmax_ge c hc
      · intro c hc hcnt
        rw [hm] at hcnt ⊢
        have hcfil : c ∈ cf :: rest := by
          rw [← hfe]
          refine List.mem_filter.mpr ⟨mem_sortedUnique.mpr hc, ?_⟩
          rw [hcnt, hcfcnt]
          exact beq_self_eq_true _
        rcases List.mem_cons.mp hcfil with rfl | hcr
        · exact pyStrLe_refl _
        · exact pyStrLe_of_lt ((List.pairwise_cons.mp hpw).1 c hcr)

/-- The category values of one merchant's rows (NaN categories dropped, as
`mode()` drops NaN), in record order. -/
def merchCats (df : List Tx) (m : String) : List String :=
  (groupRows df (fun t => t.merchant) m).filterMap fun t => t.category

/-- One merchant, two equally frequent categories, the later one ("a")
alphabetically before the earlier one ("b"). -/
def modeBadTxs : List Tx :=
  [{ merchant := some "m", category := some "b", amount := PyVal.val (-1) },
   { merchant := some "m", category := some "a", amount := PyVal.val (-1) }]

/-- The Merchant Analysis result of `modeBadTxs`, fully evaluated. -/
def modeBadReport : MerchReport :=
  { merchants :=
      [{ merchant := "m", total := -2, count := 2, average := some (-1),
         primary_category := "a", percentage_of_total := 100 }],
    total_amount := -2, merchant_count := 1 }

theorem modeBad_eval : merchant_analysis modeBadTxs {} 20 = Except.ok modeBadReport := by
  norm_num [merchant_analysis, apply_filters, modeBadTxs, modeBadReport, hasAmountCol,
    hasCategoryCol, hasMerchantCol, amountsOf, groupKeys, groupRows, sortedUnique,
    pyStrLe, charListLe, charListLt, merchEntryOf, pyModeFirst, countIn,
    List.insertionSort, List.orderedInsert, List.dedup, List.filter, List.filterMap]
  decide

/-- C7 counterexample: the two categories of merchant "m" tie at one
occurrence each; the first-encountered one is "b", yet the code reports
"a" (`mode()` returns the modes sorted, so `[0]` is the code-point least,
not the first encountered). -/
theorem C7_counterexample :
    merchant_analysis modeBadTxs {} 20 = Except.ok modeBadReport ∧
      (modeBadReport.merchants.map fun e => e.primary_category) = ["a"] ∧
      merchCats (apply_filters modeBadTxs {}) "m" = ["b", "a"] ∧
      "a" ≠ "b" := by
  refine ⟨modeBad_eval, by norm_num [modeBadReport], ?_, by decide⟩
  norm_num [merchCats, groupRows, apply_filters, modeBadTxs, List.filter,
    List.filterMap]

/-- C7 (amended): merchants are sorted by absolute total descending and
truncated to `top_n`; each merchant's `primary_category` is a
maximum-frequency category of that merchant's rows, but a frequency tie
is broken toward the code-point **least** tied category, not the first
encountered. -/
theorem C7_amended (txs : List Tx) (filters : ReportFilter) (top_n : Nat)
    (r : MerchReport) (h : merchant_analysis txs filters top_n = Except.ok r) :
    List.Pairwise (fun a b : MerchEntry => |b.total| ≤ |a.total|) r.merchants ∧
      r.merchants.length ≤ top_n ∧
      ∀ e ∈ r.merchants,
        merchCats (apply_filters txs filters) e.merchant ≠ [] →
          e.primary_category ∈ merchCats (apply_filters txs filters) e.merchant ∧
          (∀ c ∈ merchCats (apply_filters txs filters) e.merchant,
            countIn (merchCats (apply_filters txs filters) e.merchant) c ≤
              countIn (merchCats (apply_filters txs filters) e.merchant)
                e.primary_category) ∧
          (∀ c ∈ merchCats (apply_filters txs filters) e.merchant,
            countIn (merchCats (apply_filters txs filters) e.merchant) c =
              countIn (merchCats (apply_filters txs filters) e.merchant)
                e.primary_category →
            pyStrLe e.primary_category c = true) := by
  simp only [merchant_analysis] at h
  by_cases hg1 : ((apply_filters txs filters).isEmpty || !hasMerchantCol txs) = true
  · rw [if_pos hg1] at h
    have hr := (Except.ok.injEq _ _).mp h
    subst hr
    exact ⟨List.Pairwise.nil, Nat.zero_le top_n,
      fun e he => absurd he (List.not_mem_nil e)⟩
  · rw [if_neg hg1] at h
    by_cases hg2 : (!hasAmountCol txs) = true
    · rw [if_pos hg2] at h
      cases h
    · rw [if_neg hg2] at h
      by_cases hg3 : (!hasCategoryCol txs) = true
      · rw [if_pos hg3] at h
        cases h
      · rw [if_neg hg3] at h
        have hr := (Except.ok.injEq _ _).mp h
        subst hr
        refine ⟨?_, ?_, ?_⟩
        · exact List.Pairwise.sublist (List.take_sublist _ _)
            (List.sorted_insertionSort _ _)
        · exact List.length_take_le _ _
        · intro e he hne
          have he2 := List.take_subset top_n _ he
          obtain ⟨k, hk, rfl⟩ := List.mem_map.mp ((mem_insertionSort _).mp he2)
          have hne' : merchCats (apply_filters txs filters) k ≠ [] := hne
          have hspec := pyModeFirst_spec hne'
          exact ⟨hspec.1, hspec.2.1, hspec.2.2⟩

/-- C7 witness: the amended statement exercised on `modeBadTxs`. -/
theorem C7_witness :
    merchant_analysis modeBadTxs {} 20 = Except.ok modeBadReport ∧
      List.Pairwise (fun a b : MerchEntry => |b.total| ≤ |a.total|)
        modeBadReport.merchants ∧
      modeBadReport.merchants.length ≤ 20 :=
  ⟨modeBad_eval,
    (C7_amended modeBadTxs {} 20 modeBadReport modeBad_eval).1,
    (C7_amended modeBadTxs {} 20 modeBadReport modeBad_eval).2.1⟩

/-! ## C5 — period label formats and their ordering -/

theorem yearlyChars_congr {d1 d2 : Date} (hy : d1.year = d2.year) :
    yearlyChars d1 = yearlyChars d2 := by
  unfold yearlyChars
  rw [hy]

theorem monthlyChars_congr {d1 d2 : Date} (hy : d1.year = d2.year)
    (hm : d1.month = d2.month) : monthlyChars d1 = monthlyChars d2 := by
  unfold monthlyChars
  rw [hy, hm]

theorem quarterlyChars_congr {d1 d2 : Date} (hy : d1.year = d2.year)
    (hq : quarterOf d1.month = quarterOf d2.month) :
    quarterlyChars d1 = quarterlyChars d2 := by
  unfold quarterlyChars
  rw [hy, hq]

/-- C5 counterexample: pandas renders the quarterly period of 2025-03-15
as `2025Q1`, with no separator — not the claim's `YYYY-Q#` format
`2025-Q1` — and the weekly period as a Monday-to-Sunday date range, not
an ISO week identifier. -/
theorem C5_counterexample :
    periodLabel TimeGrouping.quarterly ⟨2025, 3, 15⟩ = "2025Q1" ∧
      "2025Q1" ≠ "2025-Q1" ∧
      periodLabel TimeGrouping.weekly ⟨2025, 1, 15⟩ = "2025-01-13/2025-01-19" := by
  refine ⟨by decide, by decide, by decide⟩

/-- C5 (amended): the labels produced are `YYYY-MM-DD` (daily),
`start/end` Monday-to-Sunday date ranges (weekly — not an ISO week
identifier), `YYYY-MM` (monthly), `YYYYQ#` with **no** separator
(quarterly — not the claim's `YYYY-Q#`), and `YYYY` (yearly); and on
valid dates, code-point order of the labels coincides exactly with
chronological order of the underlying periods for all five
granularities. -/
theorem C5_amended :
    (periodLabel TimeGrouping.daily ⟨2025, 3, 5⟩ = "2025-03-05" ∧
      periodLabel TimeGrouping.weekly ⟨2025, 1, 15⟩ = "2025-01-13/2025-01-19" ∧
      periodLabel TimeGrouping.monthly ⟨2025, 11, 5⟩ = "2025-11" ∧
      periodLabel TimeGrouping.quarterly ⟨2025, 3, 15⟩ = "2025Q1" ∧
      periodLabel TimeGrouping.yearly ⟨2025, 11, 5⟩ = "2025") ∧
    ∀ d1 d2 : Date, validDate d1 → validDate d2 →
      ((pyStrLt (periodLabel TimeGrouping.daily d1)
          (periodLabel TimeGrouping.daily d2) = true) ↔ d1.before d2) ∧
      ((pyStrLt (periodLabel TimeGrouping.monthly d1)
          (periodLabel TimeGrouping.monthly d2) = true) ↔
        (d1.year < d2.year ∨ (d1.year = d2.year ∧ d1.month < d2.month))) ∧
      ((pyStrLt (periodLabel TimeGrouping.quarterly d1)
          (periodLabel TimeGrouping.quarterly d2) = true) ↔
        (d1.year < d2.year ∨
          (d1.year = d2.year ∧ quarterOf d1.month < quarterOf d2.month))) ∧
      ((pyStrLt (periodLabel TimeGrouping.yearly d1)
          (periodLabel TimeGrouping.yearly d2) = true) ↔ d1.year < d2.year) ∧
      ((pyStrLt (periodLabel TimeGrouping.weekly d1)
          (periodLabel TimeGrouping.weekly d2) = true) ↔
        weekIndex d1.index < weekIndex d2.index) ∧
      (d1.before d2 → weekIndex d1.index ≤ weekIndex d2.index) := by
  refine ⟨⟨by decide, by decide, by decide, by decide, by decide⟩, ?_⟩
  intro d1 d2 hv1 hv2
  have hc1 := hv1
  have hc2 := hv2
  obtain ⟨h1a, h1b, h1c, h1d, h1e, h1f⟩ := hc1
  obtain ⟨h2a, h2b, h2c, h2d, h2e, h2f⟩ := hc2
  have hy1 : d1.year ≤ 9999 := by omega
  have hy2 : d2.year ≤ 9999 := by omega
  have hm1 : d1.month ≤ 99 := by omega
  have hm2 : d2.month ≤ 99 := by omega
  have hd1 : d1.day ≤ 99 := le_trans h1f (le_trans (daysInMonth_le31 _ _) (by omega))
  have hd2 : d2.day ≤ 99 := le_trans h2f (le_trans (daysInMonth_le31 _ _) (by omega))
  have hq1 : quarterOf d1.month ≤ 9 := by
    unfold quarterOf
    omega
  have hq2 : quarterOf d2.month ≤ 9 := by
    unfold quarterOf
    omega
  refine ⟨?_, ?_, ?_, ?_, ?_, ?_⟩
  · -- daily
    constructor
    · intro hlt
      have hlt' : charListLt (dailyChars d1) (dailyChars d2) = true := hlt
      rcases Date.before_trichotomy d1 d2 with hb | he | hb
      · exact hb
      · rw [he, charListLt_irrefl] at hlt'
        simp at hlt'
      · rw [charListLt_asymm (dailyChars_lt hb hy1 hm1 hd1)] at hlt'
        simp at hlt'
    · intro hb
      show charListLt (dailyChars d1) (dailyChars d2) = true
      exact dailyChars_lt hb hy2 hm2 hd2
  · -- monthly
    have hkey : (d1.year < d2.year ∨ (d1.year = d2.year ∧ d1.month < d2.month)) ∨
        (d1.year = d2.year ∧ d1.month = d2.month) ∨
        (d2.year < d1.year ∨ (d2.year = d1.year ∧ d2.month < d1.month)) := by omega
    constructor
    · intro hlt
      have hlt' : charListLt (monthlyChars d1) (monthlyChars d2) = true := hlt
      rcases hkey with hk | hk | hk
      · exact hk
      · rw [monthlyChars_congr hk.1 hk.2, charListLt_irrefl] at hlt'
        simp at hlt'
      · rw [charListLt_asymm (monthlyChars_lt hk hy1 hm1)] at hlt'
        simp at hlt'
    · intro hk
      show charListLt (monthlyChars d1) (monthlyChars d2) = true
      exact monthlyChars_lt hk hy2 hm2
  · -- quarterly
    have hkey : (d1.year < d2.year ∨
          (d1.year = d2.year ∧ quarterOf d1.month < quarterOf d2.month)) ∨
        (d1.year = d2.year ∧ quarterOf d1.month = quarterOf d2.month) ∨
        (d2.year < d1.year ∨
          (d2.year = d1.year ∧ quarterOf d2.month < quarterOf d1.month)) := by omega
    constructor
    · intro hlt
      have hlt' : charListLt (quarterlyChars d1) (quarterlyChars d2) = true := hlt
      rcases hkey with hk | hk | hk
      · exact hk
      · rw [quarterlyChars_congr hk.1 hk.2, charListLt_irrefl] at hlt'
        simp at hlt'
      · rw [charListLt_asymm (quarterlyChars_lt hk hy1 hq1)] at hlt'
        simp at hlt'
    · intro hk
      show charListLt (quarterlyChars d1) (quarterlyChars d2) = true
      exact quarterlyChars_lt hk hy2 hq2
  · -- yearly
    constructor
    · intro hlt
      have hlt' : charListLt (yearlyChars d1) (yearlyChars d2) = true := hlt
      rcases Nat.lt_trichotomy d1.year d2.year with hk | hk | hk
      · exact hk
      · rw [yearlyChars_congr hk, charListLt_irrefl] at hlt'
        simp at hlt'
      · rw [charListLt_asymm (yearlyChars_lt hk hy1)] at hlt'
        simp at hlt'
    · intro hk
      show charListLt (yearlyChars d1) (yearlyChars d2) = true
      exact yearlyChars_lt hk hy2
  · -- weekly
    constructor
    · intro hlt
      have hlt' : charListLt (weeklyChars d1) (weeklyChars d2) = true := hlt
      rcases Nat.lt_trichotomy (weekIndex d1.index) (weekIndex d2.index) with hk | hk | hk
      · exact hk
      · rw [weeklyChars_eq_of_same_week hk, charListLt_irrefl] at hlt'
        simp at hlt'
      · rw [charListLt_asymm (weeklyChars_lt_of_week_lt hv2 hv1 hk)] at hlt'
        simp at hlt'
    · intro hk
      show charListLt (weeklyChars d1) (weeklyChars d2) = true
      exact weeklyChars_lt_of_week_lt hv1 hv2 hk
  · -- chronological order of dates refines week order
    intro hb
    exact weekIndex_mono (index_mono hv1 hv2 hb)

/-- C5 witness: the amended ordering statement exercised across a quarter
boundary. -/
theorem C5_witness :
    validDate ⟨2025, 3, 31⟩ ∧ validDate ⟨2025, 4, 1⟩ ∧
      (pyStrLt (periodLabel TimeGrouping.quarterly ⟨2025, 3, 31⟩)
          (periodLabel TimeGrouping.quarterly ⟨2025, 4, 1⟩) = true ↔
        (Date.year ⟨2025, 3, 31⟩ < Date.year ⟨2025, 4, 1⟩ ∨
          (Date.year ⟨2025, 3, 31⟩ = Date.year ⟨2025, 4, 1⟩ ∧
            quarterOf (Date.month ⟨2025, 3, 31⟩) <
              quarterOf (Date.month ⟨2025, 4, 1⟩)))) :=
  ⟨by decide, by decide,
    (C5_amended.2 ⟨2025, 3, 31⟩ ⟨2025, 4, 1⟩ (by decide) (by decide)).2.2.1⟩
